import Mathlib

/-!
Verification of the capital-rotation allocation engine of the
Polymarket trading simulator (source files `engine.py`,
`runtime_state.py`, `src/config/config_manager.py`).

Modelling conventions.

* Python floats are modelled as exact rationals (`ℚ`); the float
  literals `1e-6`, `1e-9`, `-1e9` of the source become the exact
  rationals `eps6`, `eps9`, `negBig`.
* The only transcendental operation of the engine, `math.log1p`, is
  abstracted as an explicit parameter `ln1p : ℚ → ℚ`: the engine's
  control flow consumes only the values returned by `log1p`, so every
  definition below is parametric in it and all control-flow theorems
  hold for every choice of `ln1p` (in particular for the real
  logarithm).
* Wall-clock time (`datetime.now`) is modelled as a rational parameter
  `now`; ISO timestamps and their parsed forms are identified with
  rationals, and the resolution month string of a market is carried as
  a precomputed field `resolution_month_str` (its derivation from the
  resolution datetime is pure string formatting, irrelevant here).
* Python mutation is modelled by explicit state passing.  Python `or`
  on numbers (which treats `0.0` like `None`) is modelled by `pyOr`.
-/

namespace PolyEngine

/-- Exact value of the float literal `1e-6` used by the engine's cash
and capacity epsilon checks. -/
def eps6 : ℚ := 1 / 1000000

/-- Exact value of the float literal `1e-9` used by the fill loops and
the dust checks. -/
def eps9 : ℚ := 1 / 1000000000

/-- Exact value of the float literal `-1e9`, the sentinel cached for an
undefined held g in the donor list of `AllocationEngine.execute`. -/
def negBig : ℚ := -(1000000000 : ℚ)

/-- Python `x or d` for an optional number `x`: both `None` and `0.0`
are falsy and fall through to the default. -/
def pyOr (o : Option ℚ) (d : ℚ) : ℚ :=
  match o with
  | none => d
  | some x => if x = 0 then d else x

/-- Global policy (`config_manager.GlobalPolicy`), restricted to the
fields the allocation engine reads; defaults are those of the Python
dataclass. -/
structure GlobalPolicy where
  settlement_lambda_days : ℚ := 1
  delta_threshold : ℚ := 2 / 10000
  min_g : ℚ := 8 / 10000
  cash_reserve_pct : ℚ := 7 / 100
  max_parent_allocation_pct : ℚ := 20 / 100
  max_month_allocation_pct : ℚ := 35 / 100
  slippage_cap_bps : ℚ := 40
  exit_slippage_cap_bps : ℚ := 40

/-- Per-market policy (`config_manager.MarketPolicy`), restricted to
the fields the allocation engine reads; defaults are those of the
Python dataclass.  `max_allocation_pct`, `exit_slippage_cap_bps`,
`max_per_event_pct` and `max_per_month_pct` are optional exactly where
the engine guards against `None`. -/
structure MarketPolicy where
  enabled : Bool := true
  auto_buy : Bool := false
  auto_sell : Bool := true
  max_allocation_pct : Option ℚ := some (20 / 100)
  max_notional : ℚ := 15000
  per_pass_buy_cap : ℚ := 3000
  min_price : ℚ := 2 / 100
  max_price : ℚ := 90 / 100
  min_days : ℚ := 1
  max_days : ℚ := 120
  min_g : ℚ := 8 / 10000
  slippage_cap_bps : ℚ := 40
  exit_slippage_cap_bps : Option ℚ := none
  priority : Int := 3
  whitelist_autobuy : Bool := false
  max_per_event_pct : Option ℚ := none
  max_per_month_pct : Option ℚ := none

/-- Source `MarketPolicy.effective_slippage_cap`: the per-market field
is a non-optional float, so the `is not None` test always succeeds and
the per-market value is returned. -/
def MarketPolicy.effective_slippage_cap (p : MarketPolicy) (_g : GlobalPolicy) : ℚ :=
  p.slippage_cap_bps

/-- Source `MarketPolicy.effective_exit_slippage_cap`: per-market
override if set, else the global cap. -/
def MarketPolicy.effective_exit_slippage_cap (p : MarketPolicy) (g : GlobalPolicy) : ℚ :=
  p.exit_slippage_cap_bps.getD g.exit_slippage_cap_bps

/-- Simulator configuration (`config_manager.SimulatorConfig`): the
global policy plus per-market policies keyed by market id. -/
structure SimulatorConfig where
  global_policy : GlobalPolicy := {}
  market_policies : List (String × MarketPolicy) := []

/-- Lookup in an association list keyed by strings (Python dict
access). -/
def lookupKey {α : Type} (k : String) : List (String × α) → Option α
  | [] => none
  | e :: rest => if e.1 = k then some e.2 else lookupKey k rest

/-- Source `SimulatorConfig.get_market_policy`: exact per-market entry,
else the `default` entry, else a fresh default `MarketPolicy`. -/
def SimulatorConfig.get_market_policy (cfg : SimulatorConfig) (market_id : String) :
    MarketPolicy :=
  match lookupKey market_id cfg.market_policies with
  | some p => p
  | none => (lookupKey "default" cfg.market_policies).getD {}

/-- Order book of one market: ask and bid levels as (price, size)
pairs, mirroring the `order_book` dict of `MarketState`. -/
structure OrderBook where
  asks : List (ℚ × ℚ) := []
  bids : List (ℚ × ℚ) := []

/-- Per-outcome market state (`runtime_state.MarketState`), restricted
to the fields the engine reads or writes.  `resolution_month_str`
carries the precomputed `YYYY-MM` key returned by
`resolution_month()`. -/
structure MarketState where
  market_id : String
  outcome : String
  question : String := ""
  parent_event_id : String := ""
  resolution_month_str : String := ""
  resolution_days : ℚ := 0
  best_ask : Option ℚ := none
  best_bid : Option ℚ := none
  last_price : Option ℚ := none
  order_book : OrderBook := {}
  held_shares : ℚ := 0
  average_price : Option ℚ := none
  realized_profit : ℚ := 0

/-- Source `MarketState.key`. -/
def MarketState.key (m : MarketState) : String :=
  m.market_id ++ "|" ++ m.outcome

/-- Source `MarketState.resolution_month` (the datetime parsing and
month formatting are abstracted into the precomputed field). -/
def MarketState.resolution_month (m : MarketState) : String :=
  m.resolution_month_str

/-- Source `MarketState.market_value`: held shares times the first
truthy benchmark of best bid, last price, average price, else 0. -/
def MarketState.market_value (m : MarketState) : ℚ :=
  if m.held_shares ≤ 0 then 0
  else m.held_shares * pyOr m.best_bid (pyOr m.last_price (pyOr m.average_price 0))

/-- Source `MarketState.invested_amount`. -/
def MarketState.invested_amount (m : MarketState) : ℚ :=
  match m.average_price with
  | none => 0
  | some a => if m.held_shares ≤ 0 then 0 else m.held_shares * a

/-- Source `MarketState.g_for_price`. -/
def MarketState.g_for_price (m : MarketState) (ln1p : ℚ → ℚ) (price lambda_days : ℚ) :
    Option ℚ :=
  if price ≤ 0 ∨ m.resolution_days ≤ 0 then none
  else
    let r := (98 / 100) * ((1 - price) / price)
    let denom := m.resolution_days + lambda_days
    if denom ≤ 0 then none else some (ln1p r / denom)

/-- Source `MarketState.g_held`: undefined when no shares are held or
the average price is falsy (`None` or `0.0`). -/
def MarketState.g_held (m : MarketState) (ln1p : ℚ → ℚ) (lambda_days : ℚ) : Option ℚ :=
  match m.average_price with
  | none => none
  | some a => if m.held_shares ≤ 0 ∨ a = 0 then none else m.g_for_price ln1p a lambda_days

/-- Source `MarketState.buy`: a no-op for non-positive share counts;
otherwise the average price is set to the trade price when the current
position or average price is falsy, else to the weighted blend. -/
def MarketState.buy (m : MarketState) (shares price : ℚ) : MarketState :=
  if shares ≤ 0 then m
  else
    let total_cost := shares * price
    let avg :=
      if m.held_shares ≤ 0 ∨ pyOr m.average_price 0 = 0 then price
      else (m.average_price.getD 0 * m.held_shares + total_cost) / (m.held_shares + shares)
    { m with average_price := some avg, held_shares := m.held_shares + shares }

/-- Source `MarketState.sell`: caps the quantity at held shares,
realizes the trade P&L, and clears the position (shares to 0, average
price to undefined) once at most `1e-9` shares remain.  Returns the
proceeds together with the updated market. -/
def MarketState.sell (m : MarketState) (shares price : ℚ) : ℚ × MarketState :=
  let s := min shares m.held_shares
  if s ≤ 0 then (0, m)
  else
    let proceeds := s * price
    let cost_basis := s * m.average_price.getD 0
    let held := m.held_shares - s
    if held ≤ eps9 then
      (proceeds, { m with held_shares := 0, average_price := none,
                          realized_profit := m.realized_profit + (proceeds - cost_basis) })
    else
      (proceeds, { m with held_shares := held,
                          realized_profit := m.realized_profit + (proceeds - cost_basis) })

/-- Freeze entry (`runtime_state.FreezeStatus`); the expiry timestamp
is modelled as a rational instant. -/
structure FreezeStatus where
  reason : String := ""
  activated_at : ℚ := 0
  until_time : ℚ

/-- Source `FreezeStatus.is_active`: active iff the current time is
strictly before the expiry. -/
def FreezeStatus.is_active (f : FreezeStatus) (now : ℚ) : Bool :=
  decide (now < f.until_time)

/-- Trade-log entry (`runtime_state.TradeLogEntry`); the free-form
`metadata` dict is omitted and the ISO timestamp is the rational
instant of the cycle. -/
structure TradeLogEntry where
  timestamp : ℚ
  mode : String
  action : String
  market_id : String
  question : String
  outcome : String
  shares : ℚ
  price : ℚ
  value : ℚ
  g_before : Option ℚ
  g_after : Option ℚ
  slippage_bps : Option ℚ
  reasons : List String

/-- Status of a candidate: the source uses the strings `eligible` and
`blocked`. -/
inductive OppStatus where
  | eligible
  | blocked
  deriving DecidableEq

/-- Candidate opportunity (`engine.CandidateOpportunity`). -/
structure CandidateOpportunity where
  market_key : String
  market_id : String
  outcome : String
  question : String
  best_ask : Option ℚ
  resolution_days : ℚ
  g : Option ℚ
  capacity_value : ℚ
  slippage_bps : Option ℚ := none
  status : OppStatus
  reasons : List String := []
  confidence : ℚ := 1
  rank : Option Nat := none

/-- Value stored under a key of a rejection `details` dict. -/
inductive DetailVal where
  | num : ℚ → DetailVal
  | optNum : Option ℚ → DetailVal
  | str : String → DetailVal

/-- Rejection record: the skip dicts appended to `result.rejections`
by `evaluate` and by `append_skip` inside `execute`. -/
structure Rejection where
  market_id : String
  question : String
  outcome : String
  side : String
  rank : Option Nat := none
  reasons : List String
  g : Option ℚ
  details : List (String × DetailVal)

/-- Sell record appended to `result.sells` for a rotation sell. -/
structure SellRec where
  market_id : String
  question : String
  outcome : String
  side : String
  shares : ℚ
  price : ℚ
  value : ℚ
  slippage_bps : ℚ
  exit_slippage_cap_bps : ℚ
  g_before : ℚ
  target_market_id : String
  target_question : String
  target_outcome : String
  target_side : String
  target_g : ℚ
  delta_threshold : ℚ
  reason : String
  profit_usd : ℚ
  profit_pct : ℚ
  cost_basis : ℚ
  remaining_shares : ℚ
  remaining_value : ℚ
  remaining_avg_price : Option ℚ
  rank : Option Nat

/-- Buy record appended to `result.buys` for a committed buy. -/
structure BuyRec where
  buy_type : String
  market_id : String
  question : String
  outcome : String
  side : String
  shares : ℚ
  price : ℚ
  cost : ℚ
  slippage_bps : ℚ
  slippage_cap_bps : ℚ
  rank : Option Nat
  g : ℚ
  g_before : Option ℚ
  g_after : Option ℚ
  previous_shares : ℚ
  previous_avg_price : ℚ
  new_shares : ℚ
  new_avg_price : Option ℚ
  expected_profit : ℚ
  roi : ℚ
  resolution_days : ℚ
  delta_g : ℚ
  confidence : ℚ

/-- Decision record (`runtime_state.DecisionRecord`). -/
structure DecisionRecord where
  timestamp : ℚ
  buys : List BuyRec
  sells : List SellRec
  rejections : List Rejection
  opportunities : List CandidateOpportunity

/-- Result of one engine cycle (`engine.EngineResult`). -/
structure EngineResult where
  timestamp : ℚ
  buys : List BuyRec := []
  sells : List SellRec := []
  rejections : List Rejection := []
  opportunities : List CandidateOpportunity := []

/-- Aggregate runtime state (`runtime_state.RuntimeState`), restricted
to the fields the engine reads or writes.  The market map is carried as
a list in insertion order (Python dict order); the freeze table is an
association list keyed by market key. -/
structure RuntimeState where
  total_budget : ℚ := 0
  cash_balance : ℚ := 0
  markets : List MarketState := []
  trade_log : List TradeLogEntry := []
  active_freezes : List (String × FreezeStatus) := []
  last_decision : Option DecisionRecord := none
  mode : String := "live"

/-- Source `RuntimeState.list_markets` (dict values in order). -/
def RuntimeState.list_markets (st : RuntimeState) : List MarketState :=
  st.markets

/-- Source `RuntimeState.engaged_markets`. -/
def RuntimeState.engaged_markets (st : RuntimeState) : List MarketState :=
  st.markets.filter (fun m => decide (0 < m.held_shares))

/-- Source `engine.compute_g`: undefined when the price is missing or
non-positive or the smoothed horizon is non-positive, else
`ln1p r / (resolution_days + lambda)` with `r = 0.98 (1 - p) / p`. -/
def compute_g (ln1p : ℚ → ℚ) (price : Option ℚ) (resolution_days lambda_days : ℚ) :
    Option ℚ :=
  match price with
  | none => none
  | some p =>
    if p ≤ 0 ∨ resolution_days + lambda_days ≤ 0 then none
    else some (ln1p ((98 / 100) * ((1 - p) / p)) / (resolution_days + lambda_days))

/-- Accumulation loop of `compute_fill_from_asks`: walks the ask levels
for a target notional and returns (total cost, total shares). -/
def askWalk : List (ℚ × ℚ) → ℚ → ℚ × ℚ
  | [], _ => (0, 0)
  | (price, size) :: rest, remaining =>
    if price ≤ 0 ∨ size ≤ 0 then askWalk rest remaining
    else
      let take_value := min (price * size) remaining
      if take_value ≤ 0 then (0, 0)
      else
        let shares := take_value / price
        let remaining2 := remaining - take_value
        if remaining2 ≤ eps9 then (price * shares, shares)
        else
          let rec2 := askWalk rest remaining2
          (price * shares + rec2.1, shares + rec2.2)

/-- Per-level takes of the ask walk: the (price, shares taken) pairs
accumulated by `compute_fill_from_asks`, used to state fill
conservation. -/
def askTakes : List (ℚ × ℚ) → ℚ → List (ℚ × ℚ)
  | [], _ => []
  | (price, size) :: rest, remaining =>
    if price ≤ 0 ∨ size ≤ 0 then askTakes rest remaining
    else
      let take_value := min (price * size) remaining
      if take_value ≤ 0 then []
      else
        let shares := take_value / price
        let remaining2 := remaining - take_value
        if remaining2 ≤ eps9 then [(price, shares)]
        else (price, shares) :: askTakes rest remaining2

/-- Source `engine.compute_fill_from_asks`: returns (shares, average
price, slippage bps). -/
def compute_fill_from_asks : List (ℚ × ℚ) → ℚ → ℚ × ℚ × ℚ
  | [], _ => (0, 0, 0)
  | (best_price, s0) :: rest, max_value =>
    if max_value ≤ 0 then (0, 0, 0)
    else
      let w := askWalk ((best_price, s0) :: rest) max_value
      if w.2 ≤ 0 then (0, 0, 0)
      else
        let avg_price := w.1 / w.2
        let slippage_bps := if best_price = 0 then 0 else (avg_price / best_price - 1) * 10000
        (w.2, avg_price, slippage_bps)

/-- Accumulation loop of `compute_fill_from_bids`: walks the bid levels
for a target share quantity and returns (total proceeds, total
shares). -/
def bidWalk : List (ℚ × ℚ) → ℚ → ℚ × ℚ
  | [], _ => (0, 0)
  | (price, size) :: rest, remaining =>
    if price ≤ 0 ∨ size ≤ 0 then bidWalk rest remaining
    else
      let sell_shares := min size remaining
      let remaining2 := remaining - sell_shares
      if remaining2 ≤ eps9 then (price * sell_shares, sell_shares)
      else
        let rec2 := bidWalk rest remaining2
        (price * sell_shares + rec2.1, sell_shares + rec2.2)

/-- Source `engine.compute_fill_from_bids`: returns (shares, average
price, slippage bps). -/
def compute_fill_from_bids : List (ℚ × ℚ) → ℚ → ℚ × ℚ × ℚ
  | [], _ => (0, 0, 0)
  | (best_price, s0) :: rest, shares_to_sell =>
    if shares_to_sell ≤ 0 then (0, 0, 0)
    else
      let w := bidWalk ((best_price, s0) :: rest) shares_to_sell
      if w.2 ≤ 0 then (0, 0, 0)
      else
        let avg_price := w.1 / w.2
        let slippage_bps := if best_price = 0 then 0 else (best_price - avg_price) / best_price * 10000
        (w.2, avg_price, slippage_bps)

/-- First blocking chain of `evaluate_market_candidate`: the
`disabled` / `missing_best_ask` / `price_bounds` / `day_bounds` elif
ladder. -/
def candStage1 (market : MarketState) (policy : MarketPolicy) : OppStatus × List String :=
  if policy.enabled = false then (.blocked, ["disabled"])
  else
    match market.best_ask with
    | none => (.blocked, ["missing_best_ask"])
    | some ba =>
      if ba < policy.min_price ∨ policy.max_price < ba then (.blocked, ["price_bounds"])
      else if market.resolution_days < policy.min_days ∨
          policy.max_days < market.resolution_days then (.blocked, ["day_bounds"])
      else (.eligible, [])

/-- Second blocking stage of `evaluate_market_candidate`: the `min_g`
floor check, applied only to candidates still eligible. -/
def candStage2 (g : Option ℚ) (policy : MarketPolicy) (global_policy : GlobalPolicy)
    (s1 : OppStatus × List String) : OppStatus × List String :=
  if s1.1 = .eligible then
    match g with
    | none => (.blocked, s1.2 ++ ["min_g"])
    | some gv =>
      if gv < max policy.min_g global_policy.min_g then (.blocked, s1.2 ++ ["min_g"])
      else s1
  else s1

/-- Source `engine.evaluate_market_candidate`. -/
def evaluate_market_candidate (ln1p : ℚ → ℚ) (market : MarketState)
    (policy : MarketPolicy) (global_policy : GlobalPolicy) : CandidateOpportunity :=
  let best_ask := market.best_ask
  let g := compute_g ln1p best_ask market.resolution_days global_policy.settlement_lambda_days
  let stage2 := candStage2 g policy global_policy (candStage1 market policy)
  let capacity_value :=
    match best_ask with
    | none => 0
    | some ba => if ba = 0 then 0 else ba * (market.order_book.asks.headD (0, 0)).2
  { market_key := market.key
    market_id := market.market_id
    outcome := market.outcome
    question := market.question
    best_ask := best_ask
    resolution_days := market.resolution_days
    g := g
    capacity_value := capacity_value
    status := stage2.1
    reasons := stage2.2 }

/-- Boolean flag used as the first sort-key component of `evaluate`:
`status != "eligible"`. -/
def statusFlag (o : CandidateOpportunity) : Bool :=
  match o.status with
  | .eligible => false
  | .blocked => true

/-- Second sort-key component of `evaluate`: `-(item.g or -1)`, with
Python truthiness on the optional g. -/
def pySortVal (g : Option ℚ) : ℚ :=
  -(pyOr g (-1))

/-- Sort order used by `evaluate`: ascending lexicographic order on the
key `(status != "eligible", -(g or -1))`. -/
def oppSortLE (a b : CandidateOpportunity) : Bool :=
  (!statusFlag a && statusFlag b) ||
    ((statusFlag a == statusFlag b) && decide (pySortVal a.g ≤ pySortVal b.g))

/-- Rank-assignment pass of `evaluate`: dense 1-based ranks for
eligible entries, in list order; other entries are left untouched. -/
def assignRanks : Nat → List CandidateOpportunity → List CandidateOpportunity
  | _, [] => []
  | r, o :: rest =>
    if o.status = .eligible then { o with rank := some r } :: assignRanks (r + 1) rest
    else o :: assignRanks r rest

/-- Details dict of the rejection record built by `evaluate` for a
blocked candidate. -/
def evalRejDetails (cfg : SimulatorConfig) (policy : MarketPolicy)
    (market : MarketState) (opp : CandidateOpportunity) : List (String × DetailVal) :=
  [("min_price", .num policy.min_price),
   ("max_price", .num policy.max_price),
   ("min_days", .num policy.min_days),
   ("max_days", .num policy.max_days),
   ("min_g", .num (max policy.min_g cfg.global_policy.min_g)),
   ("best_ask", .optNum opp.best_ask),
   ("resolution_days", .num market.resolution_days)]

/-- Source `AllocationEngine.evaluate`: scores every tracked market,
records a rejection for each blocked candidate, sorts eligible first
then descending by g, and assigns dense ranks to eligible entries. -/
def AllocationEngine.evaluate (ln1p : ℚ → ℚ) (cfg : SimulatorConfig) (now : ℚ)
    (state : RuntimeState) : EngineResult :=
  let items := state.list_markets.map (fun market =>
    (market, cfg.get_market_policy market.market_id))
  let opps := items.map (fun it =>
    evaluate_market_candidate ln1p it.1 it.2 cfg.global_policy)
  let rejections := items.filterMap (fun it =>
    let opp := evaluate_market_candidate ln1p it.1 it.2 cfg.global_policy
    if opp.status ≠ .eligible then
      some { market_id := opp.market_id
             question := opp.question
             outcome := opp.outcome
             side := opp.outcome
             reasons := opp.reasons
             g := opp.g
             details := evalRejDetails cfg it.2 it.1 opp }
    else none)
  let ranked := assignRanks 1 (opps.mergeSort oppSortLE)
  { timestamp := now, rejections := rejections, opportunities := ranked }

/-- Lookup of a freeze entry by market key. -/
def lookupFreeze (fs : List (String × FreezeStatus)) (key : String) : Option FreezeStatus :=
  lookupKey key fs

/-- Removal of a freeze entry (`RuntimeState.clear_freeze`). -/
def eraseFreeze (fs : List (String × FreezeStatus)) (key : String) :
    List (String × FreezeStatus) :=
  fs.filter (fun e => !(decide (e.1 = key)))

/-- Source `RuntimeState.get_freeze` on the freeze table: an entry is
returned only while active; an expired entry is removed when read. -/
def getFreeze (fs : List (String × FreezeStatus)) (now : ℚ) (key : String) :
    Option FreezeStatus × List (String × FreezeStatus) :=
  match lookupFreeze fs key with
  | none => (none, fs)
  | some f => if f.is_active now then (some f, fs) else (none, eraseFreeze fs key)

/-- Source `RuntimeState.get_freeze` (state-level wrapper). -/
def RuntimeState.get_freeze (st : RuntimeState) (now : ℚ) (key : String) :
    Option FreezeStatus × RuntimeState :=
  let r := getFreeze st.active_freezes now key
  (r.1, { st with active_freezes := r.2 })

/-- Source `RuntimeState.append_trade`: append, keeping at most the
last 5000 entries. -/
def appendTrade (log : List TradeLogEntry) (e : TradeLogEntry) : List TradeLogEntry :=
  let l := log ++ [e]
  if 5000 < l.length then l.drop (l.length - 5000) else l

/-- Entry of the donor (`holdings`) list of `execute`: the market is
referenced by its key, `g` caches the held g (`-1e9` when undefined)
and `priority` copies the policy's priority rank. -/
structure Holding where
  key : String
  policy : MarketPolicy
  g : ℚ
  priority : Int

/-- Cached held g of a holdings entry: the value when defined, else the
`-1e9` sentinel. -/
def gcache (g : Option ℚ) : ℚ :=
  g.getD negBig

/-- Sort order of the holdings list: ascending on the key
`(g, -priority)`. -/
def holdingLE (a b : Holding) : Bool :=
  decide (a.g < b.g) || (decide (a.g = b.g) && decide (-a.priority ≤ -b.priority))

/-- Source `holdings.sort(key=lambda item: (item["g"], -item["priority"]))`. -/
def sortHoldings (l : List Holding) : List Holding :=
  l.mergeSort holdingLE

/-- Lookup of a market by key in the market store (the Python object
reference held by `holdings` and by `exec_state.market`). -/
def findMarket (ms : List MarketState) (key : String) : Option MarketState :=
  ms.find? (fun m => decide (m.key = key))

/-- Replacement of the market with the given key (Python in-place
mutation of the shared `MarketState` object). -/
def updateMarket (ms : List MarketState) (key : String) (m2 : MarketState) :
    List MarketState :=
  ms.map (fun m => if m.key = key then m2 else m)

/-- Fixed context of one `execute` cycle. -/
structure ExecCtx where
  ln1p : ℚ → ℚ
  cfg : SimulatorConfig
  now : ℚ
  mode : String
  total_budget : ℚ
  cash_reserve_value : ℚ

/-- Mutable state threaded through the candidate loop of `execute`. -/
structure LoopSt where
  markets : List MarketState
  freezes : List (String × FreezeStatus)
  trade_log : List TradeLogEntry
  cash : ℚ
  holdings : List Holding
  exposures_event : String → ℚ
  exposures_month : String → ℚ
  opportunities : List CandidateOpportunity
  buys : List BuyRec
  sells : List SellRec
  rejections : List Rejection

/-- Source `append_skip` inside `execute`: record a rejection with the
candidate's rank, reason codes and details. -/
def appendSkip (ls : LoopSt) (market : MarketState) (opp : CandidateOpportunity)
    (reason_codes : List String) (details : List (String × DetailVal)) : LoopSt :=
  { ls with rejections := ls.rejections ++
      [{ market_id := market.market_id
         question := market.question
         outcome := market.outcome
         side := market.outcome
         rank := opp.rank
         reasons := reason_codes
         g := opp.g
         details := details }] }

/-- Source `AllocationEngine._simulate_sell`: size a sell to the needed
cash against the bid book, rejecting the fill when the exit slippage
cap is exceeded. -/
def simulateSell : List (ℚ × ℚ) → ℚ → MarketState → GlobalPolicy → MarketPolicy →
    ℚ × ℚ × ℚ
  | [], _, _, _, _ => (0, 0, 0)
  | (best_price, s0) :: rest, needed_cash, market, global_policy, policy =>
    if needed_cash ≤ 0 then (0, 0, 0)
    else
      let target_shares := min market.held_shares
        (if best_price = 0 then market.held_shares else needed_cash / best_price)
      let f := compute_fill_from_bids ((best_price, s0) :: rest) target_shares
      if f.1 ≤ 0 then (0, 0, 0)
      else if policy.effective_exit_slippage_cap global_policy < f.2.2 then (0, 0, 0)
      else f

/-- Rotation funding loop of `execute` (the `for record in candidates`
loop): walks the donor snapshot, selling eligible donors until the
shortfall is covered or the snapshot is exhausted.  Returns the updated
state and the remaining shortfall. -/
def rotationLoop (ctx : ExecCtx) (opp : CandidateOpportunity) (oppG cost : ℚ) :
    List Holding → ℚ → LoopSt → LoopSt × ℚ
  | [], needed, ls => (ls, needed)
  | donor :: rest, needed, ls =>
    match findMarket ls.markets donor.key with
    | none => rotationLoop ctx opp oppG cost rest needed ls
    | some dm =>
      match dm.g_held ctx.ln1p ctx.cfg.global_policy.settlement_lambda_days with
      | none => rotationLoop ctx opp oppG cost rest needed ls
      | some g_candidate =>
        if oppG < g_candidate + ctx.cfg.global_policy.delta_threshold then
          rotationLoop ctx opp oppG cost rest needed ls
        else
          let prior_avg_price := pyOr dm.average_price 0
          let f := simulateSell dm.order_book.bids needed dm ctx.cfg.global_policy donor.policy
          let sell_shares := f.1
          let sell_price := f.2.1
          let sell_slippage_bps := f.2.2
          if sell_shares ≤ 0 then rotationLoop ctx opp oppG cost rest needed ls
          else
            let sold := dm.sell sell_shares sell_price
            let proceeds := sold.1
            let dm2 := sold.2
            let markets2 := updateMarket ls.markets donor.key dm2
            let cash2 := ls.cash + proceeds
            let needed2 := max 0 (cost - max 0 (cash2 - ctx.cash_reserve_value))
            let expE := fun k => if k = dm.parent_event_id
              then max 0 (ls.exposures_event dm.parent_event_id - sell_price * sell_shares)
              else ls.exposures_event k
            let expM := fun k => if k = dm.resolution_month
              then max 0 (ls.exposures_month dm.resolution_month - sell_price * sell_shares)
              else ls.exposures_month k
            let cost_basis := sell_shares * prior_avg_price
            let profit_usd := proceeds - cost_basis
            let profit_pct := if eps9 < cost_basis then profit_usd / cost_basis else 0
            let g_after := dm2.g_held ctx.ln1p ctx.cfg.global_policy.settlement_lambda_days
            let srec : SellRec :=
              { market_id := dm.market_id
                question := dm.question
                outcome := dm.outcome
                side := dm.outcome
                shares := sell_shares
                price := sell_price
                value := proceeds
                slippage_bps := sell_slippage_bps
                exit_slippage_cap_bps := donor.policy.effective_exit_slippage_cap
                  ctx.cfg.global_policy
                g_before := g_candidate
                target_market_id := opp.market_id
                target_question := opp.question
                target_outcome := opp.outcome
                target_side := opp.outcome
                target_g := oppG
                delta_threshold := ctx.cfg.global_policy.delta_threshold
                reason := "rotation"
                profit_usd := profit_usd
                profit_pct := profit_pct
                cost_basis := cost_basis
                remaining_shares := dm2.held_shares
                remaining_value := dm2.market_value
                remaining_avg_price := dm2.average_price
                rank := opp.rank }
            let entry : TradeLogEntry :=
              { timestamp := ctx.now
                mode := ctx.mode
                action := "SELL"
                market_id := dm.market_id
                question := dm.question
                outcome := dm.outcome
                shares := sell_shares
                price := sell_price
                value := proceeds
                g_before := some g_candidate
                g_after := g_after
                slippage_bps := some sell_slippage_bps
                reasons := ["rotation"] }
            let holdings2 := sortHoldings (ls.holdings.map (fun h =>
              if h.key = donor.key then { h with g := gcache g_after } else h))
            let ls2 : LoopSt :=
              { ls with markets := markets2
                        cash := cash2
                        exposures_event := expE
                        exposures_month := expM
                        sells := ls.sells ++ [srec]
                        trade_log := appendTrade ls.trade_log entry
                        holdings := holdings2 }
            if needed2 ≤ eps6 then (ls2, needed2)
            else rotationLoop ctx opp oppG cost rest needed2 ls2

/-- Per-cycle sizing cap of a candidate before portfolio caps: the
per-pass buy cap (unbounded when non-positive) clamped by the headroom
under the absolute notional cap and the budget-fraction cap. -/
def targetValue1 (ctx : ExecCtx) (market : MarketState) (policy : MarketPolicy) : ℚ :=
  let current_invested := market.invested_amount
  let max_market_value := ctx.total_budget * policy.max_allocation_pct.getD 1
  let remaining_notional := max 0 (min policy.max_notional max_market_value - current_invested)
  if 0 < policy.per_pass_buy_cap then min policy.per_pass_buy_cap remaining_notional
  else remaining_notional

/-- Final target notional of a candidate: `targetValue1` further
clamped by the parent-event and resolution-month exposure headroom. -/
def targetValue2 (ctx : ExecCtx) (ls : LoopSt) (market : MarketState)
    (policy : MarketPolicy) : ℚ :=
  let parent_cap_pct := pyOr policy.max_per_event_pct
    ctx.cfg.global_policy.max_parent_allocation_pct
  let month_cap_pct := pyOr policy.max_per_month_pct
    ctx.cfg.global_policy.max_month_allocation_pct
  let remaining_parent := max 0 (ctx.total_budget * parent_cap_pct -
    ls.exposures_event market.parent_event_id)
  let remaining_month := max 0 (ctx.total_budget * month_cap_pct -
    ls.exposures_month market.resolution_month)
  min (targetValue1 ctx market policy) (min remaining_parent remaining_month)

/-- Commit of a buy in `execute`: debit cash, blend the position,
update exposure ledgers, record the buy and the trade-log entry, and
keep the donor list current when the market has auto-sell enabled. -/
def commitBuy (ctx : ExecCtx) (ls : LoopSt) (market : MarketState)
    (opp : CandidateOpportunity) (oppG : ℚ) (g_held : Option ℚ) (policy : MarketPolicy)
    (shares avg_price slippage_bps slippage_cap cost : ℚ) (sellsBefore : Nat) : LoopSt :=
  let gp := ctx.cfg.global_policy
  let cash2 := ls.cash - cost
  let prior_shares := market.held_shares
  let prior_avg_price := pyOr market.average_price 0
  let market2 := market.buy shares avg_price
  let markets2 := updateMarket ls.markets market.key market2
  let expE := fun k => if k = market.parent_event_id
    then ls.exposures_event market.parent_event_id + cost
    else ls.exposures_event k
  let expM := fun k => if k = market.resolution_month
    then ls.exposures_month market.resolution_month + cost
    else ls.exposures_month k
  let g_after := market2.g_held ctx.ln1p gp.settlement_lambda_days
  let roi := if 0 < avg_price then (98 / 100) * ((1 - avg_price) / avg_price) else 0
  let expected_profit := cost * roi
  let delta_g := oppG - g_held.getD 0
  let buy_type := if eps9 < prior_shares then "top_up" else "buy"
  let brec : BuyRec :=
    { buy_type := buy_type
      market_id := market.market_id
      question := market.question
      outcome := market.outcome
      side := market.outcome
      shares := shares
      price := avg_price
      cost := cost
      slippage_bps := slippage_bps
      slippage_cap_bps := slippage_cap
      rank := opp.rank
      g := oppG
      g_before := g_held
      g_after := g_after
      previous_shares := prior_shares
      previous_avg_price := prior_avg_price
      new_shares := market2.held_shares
      new_avg_price := market2.average_price
      expected_profit := expected_profit
      roi := roi
      resolution_days := market.resolution_days
      delta_g := delta_g
      confidence := opp.confidence }
  let entry : TradeLogEntry :=
    { timestamp := ctx.now
      mode := ctx.mode
      action := "BUY"
      market_id := market.market_id
      question := market.question
      outcome := market.outcome
      shares := shares
      price := avg_price
      value := cost
      g_before := g_held
      g_after := g_after
      slippage_bps := some slippage_bps
      reasons := if sellsBefore < ls.sells.length then ["rotation"] else ["entry"] }
  let opps2 := ls.opportunities.map (fun o =>
    if o.market_key = opp.market_key then { o with slippage_bps := some slippage_bps }
    else o)
  let holdings2 :=
    if policy.auto_sell then
      let updated_g := gcache g_after
      if (ls.holdings.find? (fun h => decide (h.key = market.key))).isSome then
        sortHoldings (ls.holdings.map (fun h =>
          if h.key = market.key then { h with g := updated_g } else h))
      else
        sortHoldings (ls.holdings ++
          [{ key := market.key, policy := policy, g := updated_g,
             priority := policy.priority }])
    else ls.holdings
  { ls with markets := markets2
            cash := cash2
            exposures_event := expE
            exposures_month := expM
            opportunities := opps2
            buys := ls.buys ++ [brec]
            trade_log := appendTrade ls.trade_log entry
            holdings := holdings2 }

/-- Sizing, fill, funding and commit phase of one candidate, entered
after the delta-threshold, auto-buy and freeze gates. -/
def processSizing (ctx : ExecCtx) (ls : LoopSt) (market : MarketState)
    (opp : CandidateOpportunity) (oppG : ℚ) (g_held : Option ℚ)
    (policy : MarketPolicy) : LoopSt :=
  match market.order_book.asks with
  | [] => appendSkip ls market opp ["no_liquidity"] []
  | _ :: _ =>
    let gp := ctx.cfg.global_policy
    if targetValue1 ctx market policy ≤ eps6 then
      appendSkip ls market opp ["allocation_cap"]
        [("max_notional", .num policy.max_notional),
         ("max_allocation_pct", .num (policy.max_allocation_pct.getD 1)),
         ("already_invested", .num market.invested_amount)]
    else
      let target_value := targetValue2 ctx ls market policy
      if target_value ≤ eps6 then
        appendSkip ls market opp ["portfolio_cap"]
          [("parent_cap_pct", .num (pyOr policy.max_per_event_pct
              gp.max_parent_allocation_pct)),
           ("month_cap_pct", .num (pyOr policy.max_per_month_pct
              gp.max_month_allocation_pct)),
           ("parent_usage", .num (ls.exposures_event market.parent_event_id)),
           ("month_usage", .num (ls.exposures_month market.resolution_month))]
      else
        let fill := compute_fill_from_asks market.order_book.asks target_value
        let shares := fill.1
        let avg_price := fill.2.1
        let slippage_bps := fill.2.2
        if shares ≤ eps9 then ls
        else
          let slippage_cap := policy.effective_slippage_cap gp
          if slippage_cap < slippage_bps then
            appendSkip ls market opp ["slippage_cap"]
              [("slippage_bps", .num slippage_bps),
               ("slippage_cap_bps", .num slippage_cap)]
          else
            let cost := avg_price * shares
            let needed_cash :=
              if ls.cash - cost < ctx.cash_reserve_value
              then cost - max 0 (ls.cash - ctx.cash_reserve_value) else 0
            let sellsBefore := ls.sells.length
            if eps6 < needed_cash then
              let donors := ls.holdings.filter (fun h => !(decide (h.key = market.key)))
              let rot := rotationLoop ctx opp oppG cost donors needed_cash ls
              let ls2 := rot.1
              if eps6 < rot.2 then
                appendSkip ls2 market opp ["insufficient_cash"]
                  [("needed_cash", .num rot.2),
                   ("cash_available", .num ls2.cash),
                   ("cash_reserve", .num ctx.cash_reserve_value)]
              else
                commitBuy ctx ls2 market opp oppG g_held policy shares avg_price
                  slippage_bps slippage_cap cost sellsBefore
            else
              commitBuy ctx ls market opp oppG g_held policy shares avg_price
                slippage_bps slippage_cap cost sellsBefore

/-- Processing of one ranked candidate inside `execute`: the body of
the `for opportunity in evaluation.opportunities` loop. -/
def processOpportunity (ctx : ExecCtx) (ls : LoopSt) (opp : CandidateOpportunity) :
    LoopSt :=
  if opp.status ≠ .eligible then ls
  else
    match opp.g with
    | none => ls
    | some oppG =>
      match findMarket ls.markets opp.market_key with
      | none => ls
      | some market =>
        let gp := ctx.cfg.global_policy
        let policy := ctx.cfg.get_market_policy market.market_id
        let g_held := market.g_held ctx.ln1p gp.settlement_lambda_days
        let required_g := max (max gp.min_g policy.min_g)
          (g_held.getD 0 + gp.delta_threshold)
        if oppG < required_g then
          appendSkip ls market opp ["delta_threshold"]
            [("g_required", .num required_g),
             ("g_current", .optNum g_held),
             ("delta_threshold", .num gp.delta_threshold)]
        else if policy.auto_buy = false then
          appendSkip ls market opp ["auto_buy_disabled"] []
        else
          let fr := getFreeze ls.freezes ctx.now market.key
          let ls1 := { ls with freezes := fr.2 }
          match fr.1 with
          | some freeze =>
            if policy.whitelist_autobuy = false then
              appendSkip ls1 market opp ["freeze:" ++ freeze.reason]
                [("freeze_until", .num freeze.until_time),
                 ("freeze_reason", .str freeze.reason)]
            else processSizing ctx ls1 market opp oppG g_held policy
          | none => processSizing ctx ls1 market opp oppG g_held policy

/-- Candidate loop of `execute`. -/
def execLoop (ctx : ExecCtx) : List CandidateOpportunity → LoopSt → LoopSt
  | [], ls => ls
  | opp :: rest, ls => execLoop ctx rest (processOpportunity ctx ls opp)

/-- Python `mode or state.mode` (an empty mode string is falsy). -/
def pyOrStr (o : Option String) (d : String) : String :=
  match o with
  | none => d
  | some s => if s = "" then d else s

/-- Effective total budget of the cycle: the stored budget, recomputed
as cash plus invested amounts when non-positive. -/
def effectiveBudget (state : RuntimeState) : ℚ :=
  if state.total_budget ≤ 0 then
    state.cash_balance + (state.list_markets.map MarketState.invested_amount).sum
  else state.total_budget

/-- Initial event-exposure ledger (`RuntimeState.exposures_by_event`),
as a total function with default 0. -/
def exposuresByEvent (state : RuntimeState) : String → ℚ :=
  fun k => ((state.markets.filter (fun m => decide (m.parent_event_id = k))).map
    MarketState.market_value).sum

/-- Initial month-exposure ledger (`RuntimeState.exposures_by_month`),
as a total function with default 0. -/
def exposuresByMonth (state : RuntimeState) : String → ℚ :=
  fun k => ((state.markets.filter (fun m => decide (m.resolution_month = k))).map
    MarketState.market_value).sum

/-- Initial donor list of `execute`: engaged markets with auto-sell
enabled, with cached held g, sorted ascending by `(g, -priority)`. -/
def initialHoldings (ln1p : ℚ → ℚ) (cfg : SimulatorConfig) (state : RuntimeState) :
    List Holding :=
  sortHoldings (state.engaged_markets.filterMap (fun m =>
    let policy := cfg.get_market_policy m.market_id
    if policy.auto_sell then
      some { key := m.key, policy := policy,
             g := gcache (m.g_held ln1p cfg.global_policy.settlement_lambda_days),
             priority := policy.priority }
    else none))

/-- Source `AllocationEngine.execute`: evaluates, then walks the ranked
candidates performing gated, rotation-funded buys; returns the engine
result and the mutated runtime state. -/
def AllocationEngine.execute (ln1p : ℚ → ℚ) (cfg : SimulatorConfig) (now : ℚ)
    (modeArg : Option String) (state : RuntimeState) : EngineResult × RuntimeState :=
  let evaluation := AllocationEngine.evaluate ln1p cfg now state
  let total_budget := effectiveBudget state
  let ctx : ExecCtx :=
    { ln1p := ln1p
      cfg := cfg
      now := now
      mode := pyOrStr modeArg state.mode
      total_budget := total_budget
      cash_reserve_value := total_budget * cfg.global_policy.cash_reserve_pct }
  let ls0 : LoopSt :=
    { markets := state.markets
      freezes := state.active_freezes
      trade_log := state.trade_log
      cash := state.cash_balance
      holdings := initialHoldings ln1p cfg state
      exposures_event := exposuresByEvent state
      exposures_month := exposuresByMonth state
      opportunities := evaluation.opportunities
      buys := []
      sells := []
      rejections := [] }
  let lsF := execLoop ctx evaluation.opportunities ls0
  let result : EngineResult :=
    { timestamp := now, buys := lsF.buys, sells := lsF.sells,
      rejections := lsF.rejections, opportunities := lsF.opportunities }
  let decision : DecisionRecord :=
    { timestamp := now, buys := lsF.buys, sells := lsF.sells,
      rejections := lsF.rejections, opportunities := lsF.opportunities }
  (result,
   { state with total_budget := total_budget
                markets := lsF.markets
                active_freezes := lsF.freezes
                trade_log := lsF.trade_log
                cash_balance := lsF.cash
                last_decision := some decision })

/-!
Concrete instances used by counterexamples and witnesses.  `idL` is a
concrete stand-in for `log1p`; every control-flow fact exhibited on
these instances is independent of the choice of `ln1p` except where a
g value is compared against a constant, and the comparisons used here
(g far above `min_g`) hold for the real `log1p` as well.
-/

/-- Concrete scoring kernel used by the witnesses: the identity map
(a valid instantiation of the abstract `ln1p` parameter). -/
def idL : ℚ → ℚ := fun x => x

/-- Configuration with auto-buy enabled via the `default` policy and
all other values at their dataclass defaults. -/
def cfgA : SimulatorConfig :=
  { market_policies := [("default", { auto_buy := true })] }

/-- A market with a well-priced ask quote (0.5, ten days out) but a
dust-sized top ask level worth less than one micro-dollar. -/
def mktB1 : MarketState :=
  { market_id := "B", outcome := "y", parent_event_id := "eB",
    resolution_month_str := "m1", resolution_days := 10,
    best_ask := some (1/2),
    order_book := { asks := [(1/2, 19/10000000)], bids := [] } }

/-- State with zero cash holding only `mktB1`. -/
def stateA : RuntimeState :=
  { total_budget := 1000, cash_balance := 0, markets := [mktB1] }

/-- Configuration like `cfgA` but with a zero rotation delta
threshold. -/
def cfgB : SimulatorConfig :=
  { global_policy := { delta_threshold := 0 },
    market_policies := [("default", { auto_buy := true })] }

/-- A held donor position: 10 shares at average price 0.5, ten days
out, with a bid book but no ask quote. -/
def mktA2 : MarketState :=
  { market_id := "A", outcome := "y", parent_event_id := "eA",
    resolution_month_str := "m1", resolution_days := 10,
    best_ask := none,
    order_book := { asks := [], bids := [(2/5, 100)] },
    held_shares := 10, average_price := some (1/2) }

/-- A candidate with the same price and horizon as the donor `mktA2`
(hence the identical g value), and a deep ask book. -/
def mktB2 : MarketState :=
  { market_id := "B", outcome := "y", parent_event_id := "eB",
    resolution_month_str := "m1", resolution_days := 10,
    best_ask := some (1/2),
    order_book := { asks := [(1/2, 400)], bids := [] } }

/-- State with zero cash holding the donor `mktA2` and the candidate
`mktB2`. -/
def stateB : RuntimeState :=
  { total_budget := 1000, cash_balance := 0, markets := [mktA2, mktB2] }

/-- A market with a well-priced ask quote but a top ask level of
`1e-10` shares, producing a dust fill. -/
def mktD : MarketState :=
  { market_id := "D", outcome := "y", parent_event_id := "eD",
    resolution_month_str := "m1", resolution_days := 10,
    best_ask := some (1/2),
    order_book := { asks := [(1/2, 1/10000000000)], bids := [] } }

/-- State with ample cash holding only `mktD`. -/
def stateC : RuntimeState :=
  { total_budget := 1000, cash_balance := 1000, markets := [mktD] }

/-- Position well-formedness of a market: non-negative held shares,
and an undefined average price whenever no shares are held (the
invariant stated in the specification). -/
def MarketInv (m : MarketState) : Prop :=
  0 ≤ m.held_shares ∧ (m.held_shares = 0 → m.average_price = none)

/-- Fresh market used by the average-price counterexample. -/
def mktC9 : MarketState :=
  { market_id := "m", outcome := "y" }

/-!  Theorems.  -/

theorem lookupKey_cons {α : Type} (k : String) (e : String × α) (rest : List (String × α)) :
    lookupKey k (e :: rest) = if e.1 = k then some e.2 else lookupKey k rest := rfl

/-- C4, corrected domain statement.  `compute_g` is undefined exactly
when the price is missing or non-positive, or the smoothed horizon
`resolution_days + lambda` is non-positive; for any positive price
(including prices at or above 1) and positive horizon it returns
`ln1p (0.98 (1-p)/p) / (resolution_days + lambda)`.  There is no
`price >= 1` guard in the code. -/
theorem claim_C4_compute_g (L : ℚ → ℚ) (p d lam : ℚ) :
    (compute_g L (some p) d lam = none ↔ p ≤ 0 ∨ d + lam ≤ 0)
    ∧ compute_g L none d lam = none
    ∧ (0 < p → 0 < d + lam →
        compute_g L (some p) d lam
          = some (L ((98 / 100) * ((1 - p) / p)) / (d + lam))) := by
  refine ⟨?_, rfl, ?_⟩
  · show (if p ≤ 0 ∨ d + lam ≤ 0 then none else
      some (L ((98 / 100) * ((1 - p) / p)) / (d + lam))) = none ↔ p ≤ 0 ∨ d + lam ≤ 0
    split_ifs with h
    · simp [h]
    · simp [h]
  · intro hp hd
    show (if p ≤ 0 ∨ d + lam ≤ 0 then none else
      some (L ((98 / 100) * ((1 - p) / p)) / (d + lam)))
        = some (L ((98 / 100) * ((1 - p) / p)) / (d + lam))
    rw [if_neg]
    push_neg
    exact ⟨by linarith, by linarith⟩

/-- C4 witness: the corrected statement evaluated at price 2/5, ten
days to resolution and lambda 1. -/
theorem claim_C4_witness :
    compute_g idL (some (2/5)) 10 1
      = some (idL ((98 / 100) * ((1 - 2/5) / (2/5))) / (10 + 1)) :=
  (claim_C4_compute_g idL (2/5) 10 1).2.2 (by norm_num) (by norm_num)

/-- C4 counterexample: the claim asserts `compute_g` is undefined for
price at least 1, but at price exactly 1 the code returns the defined
value 0 (there is no upper price guard). -/
theorem claim_C4_counterexample :
    (1 : ℚ) ≤ 1 ∧ compute_g idL (some 1) 10 1 = some 0 := by
  refine ⟨le_refl 1, ?_⟩
  norm_num [compute_g, idL]

/-- C9, corrected statement.  `buy` and `sell` preserve the position
invariant (`held_shares >= 0`, and average price undefined at zero
shares); `buy` uses the weighted blend only when an existing position
has a defined non-zero average price (a zero average price is falsy in
Python and resets to the trade price instead of blending); `sell` caps
the quantity at held shares, realizes `proceeds - shares*avg` and
never touches the average price except to clear it together with the
shares once at most `1e-9` shares remain. -/
theorem claim_C9_position_invariants (m : MarketState) (s p : ℚ) (hm : MarketInv m) :
    MarketInv (m.buy s p)
    ∧ MarketInv (m.sell s p).2
    ∧ (∀ a, m.average_price = some a → ¬a = 0 → 0 < m.held_shares → 0 < s →
        (m.buy s p).average_price
          = some ((a * m.held_shares + s * p) / (m.held_shares + s)))
    ∧ (min s m.held_shares ≤ 0 → m.sell s p = (0, m))
    ∧ (0 < min s m.held_shares →
        (m.sell s p).1 = min s m.held_shares * p
        ∧ (m.sell s p).2.realized_profit = m.realized_profit +
            ((m.sell s p).1 - min s m.held_shares * m.average_price.getD 0)
        ∧ ((m.sell s p).2.average_price = m.average_price
              ∧ (m.sell s p).2.held_shares = m.held_shares - min s m.held_shares
            ∨ (m.sell s p).2.average_price = none
              ∧ (m.sell s p).2.held_shares = 0
              ∧ m.held_shares - min s m.held_shares ≤ eps9)) := by
  obtain ⟨h0, hz⟩ := hm
  refine ⟨?_, ?_, ?_, ?_, ?_⟩
  · simp only [MarketState.buy, MarketInv]
    split_ifs with h hc
    · exact ⟨h0, hz⟩
    · push_neg at h
      refine ⟨?_, ?_⟩
      · show (0:ℚ) ≤ m.held_shares + s
        linarith
      · intro habs
        exfalso
        have hx : m.held_shares + s = 0 := habs
        linarith
    · push_neg at h
      refine ⟨?_, ?_⟩
      · show (0:ℚ) ≤ m.held_shares + s
        linarith
      · intro habs
        exfalso
        have hx : m.held_shares + s = 0 := habs
        linarith
  · simp only [MarketState.sell, MarketInv]
    split_ifs with h h2
    · exact ⟨h0, hz⟩
    · exact ⟨le_refl 0, fun _ => rfl⟩
    · push_neg at h h2
      constructor
      · show 0 ≤ m.held_shares - min s m.held_shares
        have := min_le_right s m.held_shares
        linarith
      · intro habs
        exfalso
        have h9 : (0:ℚ) < eps9 := by norm_num [eps9]
        have : m.held_shares - min s m.held_shares = 0 := habs
        linarith
  · intro a ha hane hpos hs
    simp only [MarketState.buy]
    rw [if_neg (by linarith)]
    have hcond : ¬(m.held_shares ≤ 0 ∨ pyOr m.average_price 0 = 0) := by
      push_neg
      refine ⟨by linarith, ?_⟩
      simp [pyOr, ha, if_neg hane]
      exact hane
    show some _ = some _
    rw [if_neg hcond]
    simp [ha]
  · intro h
    simp only [MarketState.sell]
    rw [if_pos h]
  · intro h
    have hn : ¬ min s m.held_shares ≤ 0 := by linarith
    simp only [MarketState.sell]
    rw [if_neg hn]
    split_ifs with h2
    · exact ⟨rfl, rfl, Or.inr ⟨rfl, rfl, h2⟩⟩
    · push_neg at h2
      exact ⟨rfl, rfl, Or.inl ⟨rfl, rfl⟩⟩

/-- C9 witness: the corrected statement evaluated on a position of 3
shares at average price 1/2, buying 1 share at price 1/4. -/
theorem claim_C9_witness :
    MarketInv ({ mktC9 with held_shares := 3, average_price := some (1/2) } : MarketState)
    ∧ (({ mktC9 with held_shares := 3, average_price := some (1/2) } : MarketState).buy
        1 (1/4)).average_price = some ((1/2 * 3 + 1 * (1/4)) / (3 + 1)) := by
  have hinv : MarketInv ({ mktC9 with held_shares := 3, average_price := some (1/2) }
      : MarketState) := by
    constructor
    · norm_num
    · intro h
      norm_num at h
  refine ⟨hinv, ?_⟩
  exact (claim_C9_position_invariants
      ({ mktC9 with held_shares := 3, average_price := some (1/2) }) 1 (1/4) hinv).2.2.1
    (1/2) rfl (by norm_num) (by norm_num) (by norm_num)

/-- C9 counterexample: from a fresh market, `buy 1 0` then `buy 1 1`
leaves average price 1 (the Python falsiness of the stored `0.0`
average resets it to the trade price), not the weighted blend
`(0*1 + 1*1) / (1 + 1) = 1/2` claimed for every buy. -/
theorem claim_C9_counterexample :
    ((mktC9.buy 1 0).buy 1 1).average_price = some 1
    ∧ (((0:ℚ) * 1 + 1 * 1) / (1 + 1) : ℚ) = 1/2
    ∧ some (1:ℚ) ≠ some (1/2 : ℚ) := by
  refine ⟨?_, by norm_num, by norm_num⟩
  norm_num [mktC9, MarketState.buy, pyOr]

theorem askWalk_shares_le (asks : List (ℚ × ℚ)) (r : ℚ)
    (hsz : ∀ l ∈ asks, 0 ≤ l.2) :
    (askWalk asks r).2 ≤ (asks.map (fun l => l.2)).sum := by
  induction asks generalizing r with
  | nil => simp [askWalk]
  | cons hd tl ih =>
    obtain ⟨p, s⟩ := hd
    have hs : (0:ℚ) ≤ s := hsz (p, s) (List.mem_cons_self _ _)
    have htl : ∀ l ∈ tl, (0:ℚ) ≤ l.2 := fun l hl => hsz l (List.mem_cons_of_mem _ hl)
    have hsum : (0:ℚ) ≤ (tl.map (fun l => l.2)).sum := by
      apply List.sum_nonneg
      intro x hx
      obtain ⟨l, hl, hlx⟩ := List.mem_map.mp hx
      exact hlx ▸ htl l hl
    simp only [askWalk, List.map_cons, List.sum_cons]
    split_ifs with h1 h2 h3
    · have := ih r htl
      linarith
    · simp
      linarith
    · push_neg at h1 h2
      have htake : min (p * s) r ≤ p * s := min_le_left _ _
      have hdiv : min (p * s) r / p ≤ s := by
        rw [div_le_iff₀ h1.1]
        calc min (p * s) r ≤ p * s := htake
        _ = s * p := by ring
      simp only
      linarith
    · push_neg at h1 h2
      have htake : min (p * s) r ≤ p * s := min_le_left _ _
      have hdiv : min (p * s) r / p ≤ s := by
        rw [div_le_iff₀ h1.1]
        calc min (p * s) r ≤ p * s := htake
        _ = s * p := by ring
      have := ih (r - min (p * s) r) htl
      simp only
      linarith

theorem askWalk_fst_eq (asks : List (ℚ × ℚ)) (r : ℚ) :
    (askWalk asks r).1 = ((askTakes asks r).map (fun t => t.1 * t.2)).sum := by
  induction asks generalizing r with
  | nil => simp [askWalk, askTakes]
  | cons hd tl ih =>
    obtain ⟨p, s⟩ := hd
    simp only [askWalk, askTakes]
    split_ifs with h1 h2 h3
    · exact ih r
    · simp
    · simp
    · simp [ih]

theorem askWalk_snd_eq (asks : List (ℚ × ℚ)) (r : ℚ) :
    (askWalk asks r).2 = ((askTakes asks r).map (fun t => t.2)).sum := by
  induction asks generalizing r with
  | nil => simp [askWalk, askTakes]
  | cons hd tl ih =>
    obtain ⟨p, s⟩ := hd
    simp only [askWalk, askTakes]
    split_ifs with h1 h2 h3
    · exact ih r
    · simp
    · simp
    · simp [ih]

theorem askTakes_shares_pos (asks : List (ℚ × ℚ)) (r : ℚ) :
    ∀ t ∈ askTakes asks r, 0 < t.2 := by
  induction asks generalizing r with
  | nil => simp [askTakes]
  | cons hd tl ih =>
    obtain ⟨p, s⟩ := hd
    simp only [askTakes]
    split_ifs with h1 h2 h3
    · exact ih r
    · simp
    · intro t ht
      push_neg at h1 h2
      rcases List.mem_singleton.mp ht with rfl
      exact div_pos h2 h1.1
    · intro t ht
      rcases List.mem_cons.mp ht with rfl | htl
      · push_neg at h1 h2
        exact div_pos h2 h1.1
      · exact ih _ t htl

theorem askTakes_of_nonpos (asks : List (ℚ × ℚ)) (r : ℚ) (hr : r ≤ 0) :
    askTakes asks r = [] := by
  induction asks with
  | nil => rfl
  | cons hd tl ih =>
    obtain ⟨p, s⟩ := hd
    simp only [askTakes]
    split_ifs with h1 h2 h3
    · exact ih
    · rfl
    · push_neg at h1 h2
      exfalso
      have : min (p * s) r ≤ r := min_le_right _ _
      linarith
    · push_neg at h1 h2
      exfalso
      have : min (p * s) r ≤ r := min_le_right _ _
      linarith

theorem askTakes_nil_of_walk_nonpos (asks : List (ℚ × ℚ)) (r : ℚ)
    (h : (askWalk asks r).2 ≤ 0) : askTakes asks r = [] := by
  cases htk : askTakes asks r with
  | nil => rfl
  | cons t ts =>
    exfalso
    have hpos := askTakes_shares_pos asks r
    rw [htk] at hpos
    have hsum : (0:ℚ) < ((t :: ts).map (fun t => t.2)).sum := by
      simp only [List.map_cons, List.sum_cons]
      have h0 : (0:ℚ) < t.2 := hpos t (List.mem_cons_self _ _)
      have hrest : (0:ℚ) ≤ (ts.map (fun t => t.2)).sum := by
        apply List.sum_nonneg
        intro x hx
        obtain ⟨l, hl, hlx⟩ := List.mem_map.mp hx
        exact hlx ▸ le_of_lt (hpos l (List.mem_cons_of_mem _ hl))
      linarith
    rw [askWalk_snd_eq, htk] at h
    linarith

/-- C7 confirmed: for ask books with non-negative level sizes, the
fill never returns more shares than the book holds, the implied total
cost (shares times average price) equals the exact sum of per-level
price times shares taken, and an empty book or non-positive target
yields a zero fill with zero slippage (exact equalities: the float
tolerance of the claim is not needed over exact rationals). -/
theorem claim_C7_fill_conservation (asks : List (ℚ × ℚ)) (maxv : ℚ)
    (hsz : ∀ l ∈ asks, 0 ≤ l.2) :
    (compute_fill_from_asks asks maxv).1 ≤ (asks.map (fun l => l.2)).sum
    ∧ (compute_fill_from_asks asks maxv).1 * (compute_fill_from_asks asks maxv).2.1
        = ((askTakes asks maxv).map (fun t => t.1 * t.2)).sum
    ∧ ((asks = [] ∨ maxv ≤ 0) → compute_fill_from_asks asks maxv = (0, 0, 0)) := by
  have hsum0 : (0:ℚ) ≤ (asks.map (fun l => l.2)).sum := by
    apply List.sum_nonneg
    intro x hx
    obtain ⟨l, hl, hlx⟩ := List.mem_map.mp hx
    exact hlx ▸ hsz l hl
  match hasks : asks with
  | [] =>
    refine ⟨le_refl 0, by simp [compute_fill_from_asks, askTakes], fun _ => rfl⟩
  | (p0, s0) :: tl =>
    simp only [compute_fill_from_asks]
    split_ifs with h1 h2 h3
    · refine ⟨by simpa [hasks] using hsum0, ?_, fun _ => rfl⟩
      rw [askTakes_of_nonpos _ _ h1]
      simp
    · refine ⟨by simpa [hasks] using hsum0, ?_, ?_⟩
      · rw [askTakes_nil_of_walk_nonpos _ _ h2]
        simp
      · intro hor
        rcases hor with hnil | hle
        · exact absurd hnil (by simp)
        · exact absurd hle h1
    · push_neg at h1 h2
      refine ⟨?_, ?_, ?_⟩
      · simpa [hasks] using askWalk_shares_le ((p0, s0) :: tl) maxv (hasks ▸ hsz)
      · show (askWalk ((p0, s0) :: tl) maxv).2 *
          ((askWalk ((p0, s0) :: tl) maxv).1 / (askWalk ((p0, s0) :: tl) maxv).2) = _
        rw [mul_div_cancel₀ _ (by linarith)]
        exact askWalk_fst_eq _ _
      · intro hor
        rcases hor with hnil | hle
        · exact absurd hnil (by simp)
        · exact absurd hle (by linarith)
    · push_neg at h1 h2
      refine ⟨?_, ?_, ?_⟩
      · simpa [hasks] using askWalk_shares_le ((p0, s0) :: tl) maxv (hasks ▸ hsz)
      · show (askWalk ((p0, s0) :: tl) maxv).2 *
          ((askWalk ((p0, s0) :: tl) maxv).1 / (askWalk ((p0, s0) :: tl) maxv).2) = _
        rw [mul_div_cancel₀ _ (by linarith)]
        exact askWalk_fst_eq _ _
      · intro hor
        rcases hor with hnil | hle
        · exact absurd hnil (by simp)
        · exact absurd hle (by linarith)

/-- C7 witness: the conservation statement evaluated on the two-level
book ((0.5, 400), (0.6, 100)) with target notional 230. -/
theorem claim_C7_witness :
    (∀ l ∈ [((1:ℚ)/2, (400:ℚ)), (3/5, 100)], 0 ≤ l.2)
    ∧ (compute_fill_from_asks [((1:ℚ)/2, 400), (3/5, 100)] 230).1
        ≤ (([((1:ℚ)/2, (400:ℚ)), (3/5, 100)]).map (fun l => l.2)).sum :=
  ⟨by norm_num, (claim_C7_fill_conservation [((1:ℚ)/2, 400), (3/5, 100)] 230
      (by norm_num)).1⟩

theorem oppSortLE_trans (a b c : CandidateOpportunity) (hab : oppSortLE a b = true)
    (hbc : oppSortLE b c = true) : oppSortLE a c = true := by
  unfold oppSortLE at hab hbc ⊢
  cases ha : statusFlag a <;> cases hb : statusFlag b <;> cases hc : statusFlag c <;>
    simp [ha, hb, hc] at hab hbc ⊢ <;> linarith

theorem oppSortLE_total (a b : CandidateOpportunity) :
    (oppSortLE a b || oppSortLE b a) = true := by
  unfold oppSortLE
  cases ha : statusFlag a <;> cases hb : statusFlag b <;> simp [ha, hb] <;>
    exact le_total _ _

theorem assignRanks_statusg (n : Nat) (l : List CandidateOpportunity) :
    (assignRanks n l).map (fun o => (o.status, o.g)) = l.map (fun o => (o.status, o.g)) := by
  induction l generalizing n with
  | nil => rfl
  | cons o rest ih =>
    simp only [assignRanks]
    split_ifs <;> simp [ih]

theorem assignRanks_length (n : Nat) (l : List CandidateOpportunity) :
    (assignRanks n l).length = l.length := by
  have h := congrArg List.length (assignRanks_statusg n l)
  simpa using h

theorem assignRanks_rank (l : List CandidateOpportunity) :
    ∀ (n i : Nat),
    ((assignRanks n l)[i]?).map (fun o => o.rank)
      = (l[i]?).map (fun o =>
          if o.status = .eligible
          then some (n + ((l.take i).filter (fun o => decide (o.status = .eligible))).length)
          else o.rank) := by
  induction l with
  | nil => intro n i; simp [assignRanks]
  | cons o rest ih =>
    intro n i
    cases i with
    | zero =>
      simp only [assignRanks]
      by_cases h : o.status = OppStatus.eligible
      · rw [if_pos h]
        simp [h]
      · rw [if_neg h]
        simp [h]
    | succ k =>
      simp only [assignRanks]
      by_cases h : o.status = OppStatus.eligible
      · rw [if_pos h]
        simp only [List.getElem?_cons_succ]
        rw [ih (n + 1) k]
        have hfl : ((List.take (k + 1) (o :: rest)).filter
            (fun o => decide (o.status = OppStatus.eligible))).length
            = 1 + ((List.take k rest).filter
              (fun o => decide (o.status = OppStatus.eligible))).length := by
          simp [List.take_succ_cons, List.filter_cons, h]
          omega
        rw [hfl]
        cases hro : rest[k]? with
        | none => rfl
        | some o2 =>
          simp only [Option.map_some']
          by_cases h2 : o2.status = OppStatus.eligible
          · rw [if_pos h2, if_pos h2]
            simp only [Option.some.injEq]
            omega
          · rw [if_neg h2, if_neg h2]
      · rw [if_neg h]
        simp only [List.getElem?_cons_succ]
        rw [ih n k]
        have hfl : ((List.take (k + 1) (o :: rest)).filter
            (fun o => decide (o.status = OppStatus.eligible))).length
            = ((List.take k rest).filter
              (fun o => decide (o.status = OppStatus.eligible))).length := by
          simp [List.take_succ_cons, List.filter_cons, h]
        rw [hfl]

theorem candStage2_eligible (g : Option ℚ) (policy : MarketPolicy) (gp : GlobalPolicy)
    (s1 : OppStatus × List String) (h : (candStage2 g policy gp s1).1 = .eligible) :
    ∃ v, g = some v ∧ max policy.min_g gp.min_g ≤ v := by
  unfold candStage2 at h
  by_cases h1 : s1.1 = OppStatus.eligible
  · rw [if_pos h1] at h
    cases g with
    | none => simp at h
    | some gv =>
      by_cases h2 : gv < max policy.min_g gp.min_g
      · exfalso
        simp [h2] at h
      · exact ⟨gv, rfl, le_of_not_lt h2⟩
  · rw [if_neg h1] at h
    exact absurd h h1

theorem evalCand_eligible_g (ln1p : ℚ → ℚ) (m : MarketState) (p : MarketPolicy)
    (gp : GlobalPolicy)
    (h : (evaluate_market_candidate ln1p m p gp).status = .eligible) :
    ∃ v, (evaluate_market_candidate ln1p m p gp).g = some v ∧ max p.min_g gp.min_g ≤ v :=
  candStage2_eligible _ p gp _ h

theorem evalCand_rank (ln1p : ℚ → ℚ) (m : MarketState) (p : MarketPolicy)
    (gp : GlobalPolicy) : (evaluate_market_candidate ln1p m p gp).rank = none := rfl

theorem statusFlag_true_iff (o : CandidateOpportunity) :
    statusFlag o = true ↔ o.status = .blocked := by
  unfold statusFlag
  cases o.status <;> simp

theorem statusFlag_false_iff (o : CandidateOpportunity) :
    statusFlag o = false ↔ o.status = .eligible := by
  unfold statusFlag
  cases o.status <;> simp

theorem oppSortLE_blocked (a b : CandidateOpportunity) (h : oppSortLE a b = true)
    (ha : statusFlag a = true) : statusFlag b = true := by
  unfold oppSortLE at h
  cases hb : statusFlag b <;> simp [ha, hb] at h ⊢

theorem oppSortLE_elig (a b : CandidateOpportunity) (h : oppSortLE a b = true)
    (ha : statusFlag a = false) (hb : statusFlag b = false) :
    pySortVal a.g ≤ pySortVal b.g := by
  unfold oppSortLE at h
  simp [ha, hb] at h
  exact h

theorem pySortVal_le (x y : ℚ) (hx : 0 ≤ x) (hy : 0 ≤ y)
    (h : pySortVal (some x) ≤ pySortVal (some y)) : y ≤ x := by
  unfold pySortVal pyOr at h
  by_cases hx0 : x = 0 <;> by_cases hy0 : y = 0 <;>
    simp only [hx0, hy0, if_pos, if_neg, if_true, if_false] at h <;>
    first
    | (subst hx0; subst hy0; linarith)
    | (subst hx0; simp at h; linarith)
    | (subst hy0; linarith)
    | linarith

theorem evaluate_opps_eq (ln1p : ℚ → ℚ) (cfg : SimulatorConfig) (now : ℚ)
    (state : RuntimeState) :
    (AllocationEngine.evaluate ln1p cfg now state).opportunities
      = assignRanks 1 (((state.list_markets.map (fun market =>
          (market, cfg.get_market_policy market.market_id))).map (fun it =>
          evaluate_market_candidate ln1p it.1 it.2 cfg.global_policy)).mergeSort
          oppSortLE) := rfl

theorem evaluate_elig_g (ln1p : ℚ → ℚ) (cfg : SimulatorConfig) (now : ℚ)
    (state : RuntimeState) (hg : 0 ≤ cfg.global_policy.min_g) :
    ∀ o ∈ (AllocationEngine.evaluate ln1p cfg now state).opportunities,
      o.status = .eligible → ∃ v, o.g = some v ∧ 0 ≤ v := by
  intro o ho helig
  rw [evaluate_opps_eq] at ho
  set opps0 := (state.list_markets.map (fun market =>
    (market, cfg.get_market_policy market.market_id))).map (fun it =>
    evaluate_market_candidate ln1p it.1 it.2 cfg.global_policy) with hopps0
  have hmem2 : (o.status, o.g) ∈
      (assignRanks 1 (opps0.mergeSort oppSortLE)).map (fun x => (x.status, x.g)) :=
    List.mem_map_of_mem (fun x => (x.status, x.g)) ho
  rw [assignRanks_statusg] at hmem2
  have hperm : List.Perm ((opps0.mergeSort oppSortLE).map (fun x => (x.status, x.g)))
      (opps0.map (fun x => (x.status, x.g))) :=
    (List.mergeSort_perm opps0 oppSortLE).map _
  have hmem3 := hperm.mem_iff.mp hmem2
  obtain ⟨o2, ho2, hfo⟩ := List.mem_map.mp hmem3
  obtain ⟨it, hit, hito⟩ := List.mem_map.mp ho2
  have hstat : o2.status = o.status := (congrArg Prod.fst hfo)
  have hgeq : o2.g = o.g := (congrArg Prod.snd hfo)
  have helig2 : (evaluate_market_candidate ln1p it.1 it.2 cfg.global_policy).status
      = .eligible := by rw [hito, hstat, helig]
  obtain ⟨v, hv, hle⟩ := evalCand_eligible_g ln1p it.1 it.2 cfg.global_policy helig2
  refine ⟨v, ?_, ?_⟩
  · rw [← hgeq, ← hito]
    exact hv
  · have : cfg.global_policy.min_g ≤ max it.2.min_g cfg.global_policy.min_g :=
      le_max_right _ _
    linarith

theorem evaluate_sorted_rank_none (ln1p : ℚ → ℚ) (cfg : SimulatorConfig)
    (state : RuntimeState) :
    ∀ o ∈ ((state.list_markets.map (fun market =>
        (market, cfg.get_market_policy market.market_id))).map (fun it =>
        evaluate_market_candidate ln1p it.1 it.2 cfg.global_policy)).mergeSort oppSortLE,
      o.rank = none := by
  intro o ho
  have hmem := (List.mergeSort_perm _ oppSortLE).mem_iff.mp ho
  obtain ⟨it, hit, hito⟩ := List.mem_map.mp hmem
  rw [← hito]
  exact evalCand_rank _ _ _ _

theorem filter_elig_length_map (l : List CandidateOpportunity) :
    (l.filter (fun o => decide (o.status = OppStatus.eligible))).length
      = ((l.map (fun x => (x.status, x.g))).filter
          (fun x => decide (x.1 = OppStatus.eligible))).length := by
  induction l with
  | nil => rfl
  | cons a t ih =>
    simp only [List.map_cons, List.filter_cons]
    by_cases h : a.status = OppStatus.eligible
    · simp only [h]
      simp [ih]
    · simp only [decide_eq_false h]
      simp [ih, h]

/-- C5 confirmed (for configurations whose global `min_g` floor is
non-negative, as every validated configuration is): the opportunity
list of `evaluate` has all eligible candidates before all blocked
ones, eligible candidates in non-increasing order of g, and dense
1-based ranks assigned to eligible entries only, with blocked entries
keeping rank `None`. -/
theorem claim_C5_ranking (ln1p : ℚ → ℚ) (cfg : SimulatorConfig) (now : ℚ)
    (state : RuntimeState) (hg : 0 ≤ cfg.global_policy.min_g) :
    ∀ opps, opps = (AllocationEngine.evaluate ln1p cfg now state).opportunities →
    (∀ i j (hi : i < opps.length) (hj : j < opps.length), i < j →
        (opps.get ⟨i, hi⟩).status = .blocked → (opps.get ⟨j, hj⟩).status = .blocked)
    ∧ (∀ i j (hi : i < opps.length) (hj : j < opps.length), i < j →
        (opps.get ⟨i, hi⟩).status = .eligible → (opps.get ⟨j, hj⟩).status = .eligible →
        ∀ x y, (opps.get ⟨i, hi⟩).g = some x → (opps.get ⟨j, hj⟩).g = some y → y ≤ x)
    ∧ (∀ i (hi : i < opps.length),
        (opps.get ⟨i, hi⟩).rank
          = if (opps.get ⟨i, hi⟩).status = .eligible
            then some (1 + ((opps.take i).filter
              (fun o => decide (o.status = OppStatus.eligible))).length)
            else none) := by
  intro opps hopps
  have heq : opps = assignRanks 1 (((state.list_markets.map (fun market =>
      (market, cfg.get_market_policy market.market_id))).map (fun it =>
      evaluate_market_candidate ln1p it.1 it.2 cfg.global_policy)).mergeSort
      oppSortLE) := by rw [hopps, evaluate_opps_eq]
  set opps0 := (state.list_markets.map (fun market =>
      (market, cfg.get_market_policy market.market_id))).map (fun it =>
      evaluate_market_candidate ln1p it.1 it.2 cfg.global_policy) with hopps0
  set sorted := opps0.mergeSort oppSortLE with hsorted_def
  have hsorted : sorted.Pairwise (fun a b => oppSortLE a b = true) :=
    List.sorted_mergeSort oppSortLE_trans oppSortLE_total opps0
  have hlen : opps.length = sorted.length := by
    rw [heq]
    exact assignRanks_length 1 sorted
  have hproj : ∀ i (hi : i < opps.length) (hi2 : i < sorted.length),
      (opps.get ⟨i, hi⟩).status = sorted[i].status
      ∧ (opps.get ⟨i, hi⟩).g = sorted[i].g := by
    intro i hi hi2
    have h1 : (opps.map (fun x => (x.status, x.g)))[i]?
        = (sorted.map (fun x => (x.status, x.g)))[i]? := by
      rw [heq, assignRanks_statusg]
    rw [List.getElem?_map, List.getElem?_map, List.getElem?_eq_getElem hi,
      List.getElem?_eq_getElem hi2] at h1
    simp only [Option.map_some'] at h1
    injection h1 with h1
    exact ⟨congrArg Prod.fst h1, congrArg Prod.snd h1⟩
  have hpair := List.pairwise_iff_getElem.mp hsorted
  refine ⟨?_, ?_, ?_⟩
  · intro i j hi hj hij hbi
    have hi2 : i < sorted.length := by omega
    have hj2 : j < sorted.length := by omega
    have hle := hpair i j hi2 hj2 hij
    have hfi : statusFlag (sorted[i]) = true :=
      (statusFlag_true_iff _).mpr ((hproj i hi hi2).1 ▸ hbi)
    have hfj := oppSortLE_blocked _ _ hle hfi
    have := (statusFlag_true_iff _).mp hfj
    rw [(hproj j hj hj2).1]
    exact this
  · intro i j hi hj hij hei hej x y hx hy
    have hi2 : i < sorted.length := by omega
    have hj2 : j < sorted.length := by omega
    have hle := hpair i j hi2 hj2 hij
    have hfi : statusFlag (sorted[i]) = false :=
      (statusFlag_false_iff _).mpr ((hproj i hi hi2).1 ▸ hei)
    have hfj : statusFlag (sorted[j]) = false :=
      (statusFlag_false_iff _).mpr ((hproj j hj hj2).1 ▸ hej)
    have hps := oppSortLE_elig _ _ hle hfi hfj
    rw [← (hproj i hi hi2).2, ← (hproj j hj hj2).2] at hps
    rw [hx, hy] at hps
    obtain ⟨vx, hvx, hvx0⟩ := evaluate_elig_g ln1p cfg now state hg
      (opps.get ⟨i, hi⟩) (by rw [← hopps]; exact List.get_mem opps i hi) hei
    obtain ⟨vy, hvy, hvy0⟩ := evaluate_elig_g ln1p cfg now state hg
      (opps.get ⟨j, hj⟩) (by rw [← hopps]; exact List.get_mem opps j hj) hej
    rw [hx] at hvx
    rw [hy] at hvy
    injection hvx with hvx
    injection hvy with hvy
    subst hvx
    subst hvy
    exact pySortVal_le x y hvx0 hvy0 hps
  · intro i hi
    have hi2 : i < sorted.length := by omega
    have hia : i < (assignRanks 1 sorted).length := by
      rw [assignRanks_length]
      exact hi2
    have ho : opps[i]? = some (opps.get ⟨i, hi⟩) := by
      rw [List.getElem?_eq_getElem hi, List.get_eq_getElem]
    have hr := assignRanks_rank sorted 1 i
    rw [← heq] at hr
    rw [ho, List.getElem?_eq_getElem hi2] at hr
    simp only [Option.map_some'] at hr
    injection hr with hr
    rw [hr]
    have hstat := (hproj i hi hi2).1
    have hcnt : ((sorted.take i).filter
        (fun o => decide (o.status = OppStatus.eligible))).length
        = ((opps.take i).filter (fun o => decide (o.status = OppStatus.eligible))).length := by
      rw [filter_elig_length_map, filter_elig_length_map (opps.take i)]
      have hmap : (opps.take i).map (fun x => (x.status, x.g))
          = (sorted.take i).map (fun x => (x.status, x.g)) := by
        rw [List.map_take, List.map_take, heq, assignRanks_statusg]
      rw [hmap]
    by_cases hst : (opps.get ⟨i, hi⟩).status = OppStatus.eligible
    · rw [if_pos hst, if_pos (hstat ▸ hst), hcnt]
    · rw [if_neg hst, if_neg (fun habs => hst (hstat.symm ▸ habs))]
      exact evaluate_sorted_rank_none ln1p cfg state _ (sorted.getElem_mem hi2)

/-- C5 witness: the ranking statement evaluated on the single-market
state `stateA`, whose lone candidate is eligible with rank 1. -/
theorem claim_C5_witness :
    (0:ℚ) ≤ cfgA.global_policy.min_g
    ∧ ∃ hlen : 0 < (AllocationEngine.evaluate idL cfgA 0 stateA).opportunities.length,
      ((AllocationEngine.evaluate idL cfgA 0 stateA).opportunities.get ⟨0, hlen⟩).rank
        = if ((AllocationEngine.evaluate idL cfgA 0 stateA).opportunities.get
              ⟨0, hlen⟩).status = .eligible
          then some (1 + ((((AllocationEngine.evaluate idL cfgA 0 stateA).opportunities.take
              0).filter (fun o => decide (o.status = OppStatus.eligible)))).length)
          else none := by
  have hg : (0:ℚ) ≤ cfgA.global_policy.min_g := by norm_num [cfgA]
  have hlen : 0 < (AllocationEngine.evaluate idL cfgA 0 stateA).opportunities.length := by
    norm_num +decide [AllocationEngine.evaluate, evaluate_market_candidate, candStage1,
      candStage2, compute_g, idL, cfgA, stateA, mktB1, RuntimeState.list_markets,
      SimulatorConfig.get_market_policy, lookupKey, assignRanks, List.mergeSort, oppSortLE,
      statusFlag, pySortVal, pyOr, MarketState.key]
  exact ⟨hg, hlen,
    (claim_C5_ranking idL cfgA 0 stateA hg
      (AllocationEngine.evaluate idL cfgA 0 stateA).opportunities rfl).2.2 0 hlen⟩

/-- C1 counterexample: from the state `stateA` with cash balance 0,
one `execute` cycle commits a buy whose cost exceeds cash by less than
the `1e-6` epsilon and drives the cash balance strictly negative (to
-19/20000000), refuting `cash_balance >= 0`. -/
theorem claim_C1_counterexample :
    (0:ℚ) ≤ stateA.cash_balance
    ∧ (AllocationEngine.execute idL cfgA 0 none stateA).2.cash_balance < 0 := by
  constructor
  · norm_num [stateA]
  · norm_num +decide [AllocationEngine.execute, AllocationEngine.evaluate,
      evaluate_market_candidate, candStage1, candStage2, compute_g, idL, cfgA, stateA, mktB1,
      RuntimeState.list_markets, RuntimeState.engaged_markets,
      SimulatorConfig.get_market_policy, lookupKey, assignRanks, List.mergeSort, oppSortLE,
      statusFlag, pySortVal, pyOr, pyOrStr, effectiveBudget, exposuresByEvent,
      exposuresByMonth, initialHoldings, sortHoldings, execLoop, processOpportunity,
      processSizing, commitBuy, rotationLoop, appendSkip, getFreeze, lookupFreeze,
      eraseFreeze, findMarket, updateMarket, targetValue1, targetValue2,
      compute_fill_from_asks, askWalk, compute_fill_from_bids, bidWalk, simulateSell,
      MarketState.key, MarketState.g_held, MarketState.g_for_price,
      MarketState.invested_amount, MarketState.market_value, MarketState.buy,
      MarketState.sell, MarketState.resolution_month, MarketPolicy.effective_slippage_cap,
      MarketPolicy.effective_exit_slippage_cap, FreezeStatus.is_active, gcache, holdingLE,
      appendTrade, List.filterMap_cons, List.filter_cons, List.find?_cons,
      eps6, eps9, negBig]

/-- C2 counterexample: with a zero delta threshold and a donor whose
held g equals the candidate's g exactly (identical price and horizon),
`execute` performs a rotation sell whose `g_before` equals
`target_g - delta_threshold`, refuting the claim that donors are
always strictly below that bound. -/
theorem claim_C2_counterexample :
    (AllocationEngine.execute idL cfgB 0 none stateB).1.sells.length = 1
    ∧ ∀ s ∈ (AllocationEngine.execute idL cfgB 0 none stateB).1.sells,
        s.g_before = s.target_g - s.delta_threshold := by
  constructor <;>
    norm_num +decide [AllocationEngine.execute, AllocationEngine.evaluate,
      evaluate_market_candidate, candStage1, candStage2, compute_g, idL, cfgB, stateB,
      mktA2, mktB2, RuntimeState.list_markets, RuntimeState.engaged_markets,
      SimulatorConfig.get_market_policy, lookupKey, assignRanks, List.mergeSort, oppSortLE,
      statusFlag, pySortVal, pyOr, pyOrStr, effectiveBudget, exposuresByEvent,
      exposuresByMonth, initialHoldings, sortHoldings, execLoop, processOpportunity,
      processSizing, commitBuy, rotationLoop, appendSkip, getFreeze, lookupFreeze,
      eraseFreeze, findMarket, updateMarket, targetValue1, targetValue2,
      compute_fill_from_asks, askWalk, compute_fill_from_bids, bidWalk, simulateSell,
      MarketState.key, MarketState.g_held, MarketState.g_for_price,
      MarketState.invested_amount, MarketState.market_value, MarketState.buy,
      MarketState.sell, MarketState.resolution_month, MarketPolicy.effective_slippage_cap,
      MarketPolicy.effective_exit_slippage_cap, FreezeStatus.is_active, gcache, holdingLE,
      appendTrade, List.filterMap_cons, List.filter_cons, List.find?_cons,
      eps6, eps9, negBig]

/-- C10 confirmed: rotation funding is not atomic with the buy it
funds.  On `stateB`, `execute` sells the whole donor position A
(10 shares at 0.4, proceeds 4) to fund candidate B, the remaining
shortfall still exceeds the epsilon, the buy of B is skipped with
reason `insufficient_cash`, and the sell is not rolled back: the final
state keeps A emptied, the proceeds in cash, and the SELL trade-log
entry. -/
theorem claim_C10_rotation_not_atomic :
    stateB.cash_balance = 0
    ∧ (∀ m ∈ stateB.markets, m.market_id = "A" → m.held_shares = 10)
    ∧ (AllocationEngine.execute idL cfgB 0 none stateB).1.buys = []
    ∧ (AllocationEngine.execute idL cfgB 0 none stateB).1.sells.length = 1
    ∧ (∀ s ∈ (AllocationEngine.execute idL cfgB 0 none stateB).1.sells,
        s.market_id = "A" ∧ s.target_market_id = "B" ∧ s.value = 4 ∧ s.reason = "rotation")
    ∧ (AllocationEngine.execute idL cfgB 0 none stateB).1.rejections.length = 1
    ∧ (∀ r ∈ (AllocationEngine.execute idL cfgB 0 none stateB).1.rejections,
        r.reasons = ["insufficient_cash"] ∧ r.market_id = "B")
    ∧ (AllocationEngine.execute idL cfgB 0 none stateB).2.cash_balance = 4
    ∧ (∀ m ∈ (AllocationEngine.execute idL cfgB 0 none stateB).2.markets,
        m.market_id = "A" → m.held_shares = 0)
    ∧ (∀ e ∈ (AllocationEngine.execute idL cfgB 0 none stateB).2.trade_log,
        e.action = "SELL")
    ∧ (AllocationEngine.execute idL cfgB 0 none stateB).2.trade_log.length = 1 := by
  refine ⟨by norm_num [stateB], by norm_num +decide [stateB, mktA2, mktB2], ?_⟩
  norm_num +decide [AllocationEngine.execute, AllocationEngine.evaluate,
    evaluate_market_candidate, candStage1, candStage2, compute_g, idL, cfgB, stateB,
    mktA2, mktB2, RuntimeState.list_markets, RuntimeState.engaged_markets,
    SimulatorConfig.get_market_policy, lookupKey, assignRanks, List.mergeSort, oppSortLE,
    statusFlag, pySortVal, pyOr, pyOrStr, effectiveBudget, exposuresByEvent,
    exposuresByMonth, initialHoldings, sortHoldings, execLoop, processOpportunity,
    processSizing, commitBuy, rotationLoop, appendSkip, getFreeze, lookupFreeze,
    eraseFreeze, findMarket, updateMarket, targetValue1, targetValue2,
    compute_fill_from_asks, askWalk, compute_fill_from_bids, bidWalk, simulateSell,
    MarketState.key, MarketState.g_held, MarketState.g_for_price,
    MarketState.invested_amount, MarketState.market_value, MarketState.buy,
    MarketState.sell, MarketState.resolution_month, MarketPolicy.effective_slippage_cap,
    MarketPolicy.effective_exit_slippage_cap, FreezeStatus.is_active, gcache, holdingLE,
    appendTrade, List.filterMap_cons, List.filter_cons, List.find?_cons,
      eps6, eps9, negBig]

/-- C3 counterexample: on `stateC` the lone candidate is eligible
(rank 1), yet `execute` produces neither a buy nor any rejection
record for it: the ask walk returns a dust fill (`shares <= 1e-9`) and
that skip path is silent, refuting the claim that every non-bought
eligible candidate yields a rejection record. -/
theorem claim_C3_counterexample :
    (AllocationEngine.execute idL cfgA 0 none stateC).1.opportunities.length = 1
    ∧ (∀ o ∈ (AllocationEngine.execute idL cfgA 0 none stateC).1.opportunities,
        o.status = .eligible)
    ∧ (AllocationEngine.execute idL cfgA 0 none stateC).1.buys = []
    ∧ (AllocationEngine.execute idL cfgA 0 none stateC).1.rejections = [] := by
  refine ⟨?_, ?_, ?_, ?_⟩ <;>
    norm_num +decide [AllocationEngine.execute, AllocationEngine.evaluate,
      evaluate_market_candidate, candStage1, candStage2, compute_g, idL, cfgA, stateC,
      mktD, RuntimeState.list_markets, RuntimeState.engaged_markets,
      SimulatorConfig.get_market_policy, lookupKey, assignRanks, List.mergeSort, oppSortLE,
      statusFlag, pySortVal, pyOr, pyOrStr, effectiveBudget, exposuresByEvent,
      exposuresByMonth, initialHoldings, sortHoldings, execLoop, processOpportunity,
      processSizing, commitBuy, rotationLoop, appendSkip, getFreeze, lookupFreeze,
      eraseFreeze, findMarket, updateMarket, targetValue1, targetValue2,
      compute_fill_from_asks, askWalk, compute_fill_from_bids, bidWalk, simulateSell,
      MarketState.key, MarketState.g_held, MarketState.g_for_price,
      MarketState.invested_amount, MarketState.market_value, MarketState.buy,
      MarketState.sell, MarketState.resolution_month, MarketPolicy.effective_slippage_cap,
      MarketPolicy.effective_exit_slippage_cap, FreezeStatus.is_active, gcache, holdingLE,
      appendTrade, List.filterMap_cons, List.filter_cons, List.find?_cons,
      eps6, eps9, negBig]

theorem appendSkip_proj (ls : LoopSt) (market : MarketState) (opp : CandidateOpportunity)
    (rc : List String) (d : List (String × DetailVal)) :
    (appendSkip ls market opp rc d).sells = ls.sells
    ∧ (appendSkip ls market opp rc d).buys = ls.buys
    ∧ (appendSkip ls market opp rc d).cash = ls.cash
    ∧ (appendSkip ls market opp rc d).freezes = ls.freezes
    ∧ (appendSkip ls market opp rc d).markets = ls.markets
    ∧ (appendSkip ls market opp rc d).holdings = ls.holdings
    ∧ (appendSkip ls market opp rc d).rejections
        = ls.rejections ++
          [{ market_id := market.market_id
             question := market.question
             outcome := market.outcome
             side := market.outcome
             rank := opp.rank
             reasons := rc
             g := opp.g
             details := d }] :=
  ⟨rfl, rfl, rfl, rfl, rfl, rfl, rfl⟩

theorem bidWalk_nonneg (bids : List (ℚ × ℚ)) :
    ∀ r : ℚ, 0 ≤ r → 0 ≤ (bidWalk bids r).1 ∧ 0 ≤ (bidWalk bids r).2 := by
  induction bids with
  | nil => intro r _; simp [bidWalk]
  | cons hd tl ih =>
    intro r hr
    obtain ⟨p, s⟩ := hd
    simp only [bidWalk]
    split_ifs with h1 h2
    · exact ih r hr
    · push_neg at h1
      have hmin : 0 ≤ min s r := le_min (le_of_lt h1.2) hr
      exact ⟨mul_nonneg (le_of_lt h1.1) hmin, hmin⟩
    · push_neg at h1 h2
      have hmin : 0 ≤ min s r := le_min (le_of_lt h1.2) hr
      have hrec := ih (r - min s r) (by have := min_le_right s r; linarith [h2])
      have hps : 0 ≤ p * min s r := mul_nonneg (le_of_lt h1.1) hmin
      constructor
      · simp only
        linarith [hrec.1]
      · simp only
        linarith [hrec.2]

theorem fill_bids_price_nonneg (bids : List (ℚ × ℚ)) (q : ℚ)
    (h : 0 < (compute_fill_from_bids bids q).1) :
    0 ≤ (compute_fill_from_bids bids q).2.1 := by
  match bids with
  | [] => simp [compute_fill_from_bids] at h
  | (bp, bs) :: tl =>
    simp only [compute_fill_from_bids] at h ⊢
    by_cases hq : q ≤ 0
    · rw [if_pos hq] at h
      simp at h
    · rw [if_neg hq] at h ⊢
      by_cases hw : (bidWalk ((bp, bs) :: tl) q).2 ≤ 0
      · rw [if_pos hw] at h
        simp at h
      · rw [if_neg hw] at h ⊢
        push_neg at hw hq
        have hnn := bidWalk_nonneg ((bp, bs) :: tl) q (le_of_lt hq)
        exact div_nonneg hnn.1 (le_of_lt hw)

theorem simulateSell_price_nonneg (bids : List (ℚ × ℚ)) (needed : ℚ)
    (market : MarketState) (gp : GlobalPolicy) (policy : MarketPolicy)
    (h : 0 < (simulateSell bids needed market gp policy).1) :
    0 ≤ (simulateSell bids needed market gp policy).2.1 := by
  match bids with
  | [] => simp [simulateSell] at h
  | (bp, bs) :: tl =>
    simp only [simulateSell] at h ⊢
    by_cases hq : needed ≤ 0
    · rw [if_pos hq] at h
      simp at h
    · rw [if_neg hq] at h ⊢
      split_ifs at h ⊢ with h1 h2 h3 h4 h5 <;>
        first
        | exact fill_bids_price_nonneg _ _ (not_le.mp (by assumption))
        | simp at h

theorem sell_proceeds_nonneg (m : MarketState) (sh pr : ℚ) (hpr : 0 ≤ pr) :
    0 ≤ (m.sell sh pr).1 := by
  simp only [MarketState.sell]
  split_ifs with h h2
  · exact le_refl 0
  · push_neg at h
    positivity
  · push_neg at h
    positivity

theorem rotationLoop_fields (ctx : ExecCtx) (opp : CandidateOpportunity) (oppG cost : ℚ) :
    ∀ (donors : List Holding) (needed : ℚ) (ls : LoopSt),
    (rotationLoop ctx opp oppG cost donors needed ls).1.buys = ls.buys
    ∧ (rotationLoop ctx opp oppG cost donors needed ls).1.rejections = ls.rejections
    ∧ (rotationLoop ctx opp oppG cost donors needed ls).1.freezes = ls.freezes
    ∧ (rotationLoop ctx opp oppG cost donors needed ls).1.opportunities
        = ls.opportunities := by
  intro donors
  induction donors with
  | nil =>
    intro needed ls
    simp [rotationLoop]
  | cons donor rest ih =>
    intro needed ls
    have step : ∀ (ls2 : LoopSt) (n2 : ℚ), ls2.buys = ls.buys →
        ls2.rejections = ls.rejections → ls2.freezes = ls.freezes →
        ls2.opportunities = ls.opportunities →
        (rotationLoop ctx opp oppG cost rest n2 ls2).1.buys = ls.buys
        ∧ (rotationLoop ctx opp oppG cost rest n2 ls2).1.rejections = ls.rejections
        ∧ (rotationLoop ctx opp oppG cost rest n2 ls2).1.freezes = ls.freezes
        ∧ (rotationLoop ctx opp oppG cost rest n2 ls2).1.opportunities
            = ls.opportunities := by
      intro ls2 n2 h1 h2 h3 h4
      obtain ⟨a, b, c, d⟩ := ih n2 ls2
      exact ⟨a.trans h1, b.trans h2, c.trans h3, d.trans h4⟩
    simp only [rotationLoop]
    split
    · exact ih needed ls
    · split
      · exact ih needed ls
      · split_ifs with hd hs hn <;>
          first
          | exact ih needed ls
          | exact ⟨rfl, rfl, rfl, rfl⟩
          | (apply step <;> rfl)

theorem rotationLoop_cash (ctx : ExecCtx) (opp : CandidateOpportunity) (oppG cost : ℚ) :
    ∀ (donors : List Holding) (needed : ℚ) (ls : LoopSt),
    ls.cash ≤ (rotationLoop ctx opp oppG cost donors needed ls).1.cash := by
  have key : ∀ (dm : MarketState) (pol : MarketPolicy) (nd : ℚ),
      ¬(simulateSell dm.order_book.bids nd dm ctx.cfg.global_policy pol).1 ≤ 0 →
      0 ≤ (dm.sell (simulateSell dm.order_book.bids nd dm ctx.cfg.global_policy pol).1
        (simulateSell dm.order_book.bids nd dm ctx.cfg.global_policy pol).2.1).1 := by
    intro dm pol nd hpos
    exact sell_proceeds_nonneg _ _ _
      (simulateSell_price_nonneg _ _ _ _ _ (not_le.mp hpos))
  intro donors
  induction donors with
  | nil =>
    intro needed ls
    simp [rotationLoop]
  | cons donor rest ih =>
    intro needed ls
    simp only [rotationLoop]
    split
    · exact ih needed ls
    · split
      · exact ih needed ls
      · split_ifs with hd hs hn <;>
          first
          | exact ih needed ls
          | exact le_add_of_nonneg_right (key _ _ _ hs)
          | exact le_trans (le_add_of_nonneg_right (key _ _ _ hs)) (ih _ _)

theorem rotationLoop_sells_guard (ctx : ExecCtx) (opp : CandidateOpportunity)
    (oppG cost : ℚ) :
    ∀ (donors : List Holding) (needed : ℚ) (ls : LoopSt),
    ∀ s ∈ (rotationLoop ctx opp oppG cost donors needed ls).1.sells,
      s ∈ ls.sells
      ∨ (s.g_before ≤ s.target_g - s.delta_threshold
          ∧ s.target_g = oppG
          ∧ s.delta_threshold = ctx.cfg.global_policy.delta_threshold
          ∧ s.target_market_id = opp.market_id
          ∧ s.target_outcome = opp.outcome
          ∧ s.reason = "rotation") := by
  intro donors
  induction donors with
  | nil =>
    intro needed ls s hs2
    simp only [rotationLoop] at hs2
    exact Or.inl hs2
  | cons donor rest ih =>
    intro needed ls
    simp only [rotationLoop]
    split
    · exact ih needed ls
    · split
      · exact ih needed ls
      · split_ifs with hd hs hn <;>
          first
          | exact ih needed ls
          | (intro s hs2
             rcases List.mem_append.mp hs2 with hmem | hmem
             · exact Or.inl hmem
             · rcases List.mem_singleton.mp hmem with rfl
               right
               refine ⟨?_, rfl, rfl, rfl, rfl, rfl⟩
               have hge := not_lt.mp hd
               show _ ≤ _
               simp only
               linarith)
          | (intro s hs2
             rcases ih _ _ s hs2 with hmem | hp
             · rcases List.mem_append.mp hmem with hmem2 | hmem2
               · exact Or.inl hmem2
               · rcases List.mem_singleton.mp hmem2 with rfl
                 right
                 refine ⟨?_, rfl, rfl, rfl, rfl, rfl⟩
                 have hge := not_lt.mp hd
                 show _ ≤ _
                 simp only
                 linarith
             · exact Or.inr hp)

theorem processSizing_sells_guard (ctx : ExecCtx) (ls : LoopSt) (market : MarketState)
    (opp : CandidateOpportunity) (oppG : ℚ) (g_held : Option ℚ) (policy : MarketPolicy) :
    ∀ s ∈ (processSizing ctx ls market opp oppG g_held policy).sells,
      s ∈ ls.sells ∨ s.g_before ≤ s.target_g - s.delta_threshold := by
  intro s hs2
  simp only [processSizing] at hs2
  split at hs2
  · exact Or.inl hs2
  · split_ifs at hs2 <;>
      first
      | exact Or.inl hs2
      | (rcases rotationLoop_sells_guard ctx opp oppG _ _ _ _ s hs2 with h | h
         · exact Or.inl h
         · exact Or.inr h.1)

theorem processOpportunity_sells_guard (ctx : ExecCtx) (ls : LoopSt)
    (opp : CandidateOpportunity) :
    ∀ s ∈ (processOpportunity ctx ls opp).sells,
      s ∈ ls.sells ∨ s.g_before ≤ s.target_g - s.delta_threshold := by
  intro s hs2
  simp only [processOpportunity] at hs2
  split_ifs at hs2 with h1
  · exact Or.inl hs2
  · split at hs2
    · exact Or.inl hs2
    · split at hs2
      · exact Or.inl hs2
      · split_ifs at hs2 <;>
          first
          | exact Or.inl hs2
          | (split at hs2 <;>
              first
              | exact Or.inl hs2
              | (split_ifs at hs2 <;>
                  first
                  | exact Or.inl hs2
                  | (rcases processSizing_sells_guard _ _ _ _ _ _ _ s hs2 with hg | hg
                     · exact Or.inl hg
                     · exact Or.inr hg))
              | (rcases processSizing_sells_guard _ _ _ _ _ _ _ s hs2 with hg | hg
                 · exact Or.inl hg
                 · exact Or.inr hg))

theorem execLoop_sells_guard (ctx : ExecCtx) :
    ∀ (opps : List CandidateOpportunity) (ls : LoopSt),
    (∀ s ∈ ls.sells, s.g_before ≤ s.target_g - s.delta_threshold) →
    ∀ s ∈ (execLoop ctx opps ls).sells, s.g_before ≤ s.target_g - s.delta_threshold := by
  intro opps
  induction opps with
  | nil =>
    intro ls h s hs2
    exact h s hs2
  | cons opp rest ih =>
    intro ls h s hs2
    refine ih (processOpportunity ctx ls opp) ?_ s hs2
    intro s2 hs3
    rcases processOpportunity_sells_guard ctx ls opp s2 hs3 with hmem | hp
    · exact h s2 hmem
    · exact hp

/-- C2, corrected statement.  A rotation sell is never performed
against a donor whose held g exceeds `candidate.g - delta_threshold`:
every sell record satisfies
`g_before <= target_g - delta_threshold`.  The source guard is
`opportunity.g < g_candidate + delta_threshold`, so equality
(`g_held = candidate.g - delta_threshold`) is allowed and the bound is
non-strict, not strict as claimed. -/
theorem claim_C2_rotation_guard (ln1p : ℚ → ℚ) (cfg : SimulatorConfig) (now : ℚ)
    (modeArg : Option String) (state : RuntimeState) :
    ∀ s ∈ (AllocationEngine.execute ln1p cfg now modeArg state).1.sells,
      s.g_before ≤ s.target_g - s.delta_threshold := by
  intro s hs2
  refine execLoop_sells_guard _ _ _ ?_ s hs2
  intro s2 hs3
  simp at hs3

/-- C2 witness: the corrected statement applied to the rotation sell
performed on `stateB` (one sell record, satisfying the non-strict
bound with equality). -/
theorem claim_C2_witness :
    ∃ hlen : 0 < (AllocationEngine.execute idL cfgB 0 none stateB).1.sells.length,
      ((AllocationEngine.execute idL cfgB 0 none stateB).1.sells.get ⟨0, hlen⟩).g_before
        ≤ ((AllocationEngine.execute idL cfgB 0 none stateB).1.sells.get
            ⟨0, hlen⟩).target_g
          - ((AllocationEngine.execute idL cfgB 0 none stateB).1.sells.get
              ⟨0, hlen⟩).delta_threshold := by
  have hlen : 0 < (AllocationEngine.execute idL cfgB 0 none stateB).1.sells.length := by
    norm_num +decide [AllocationEngine.execute, AllocationEngine.evaluate,
      evaluate_market_candidate, candStage1, candStage2, compute_g, idL, cfgB, stateB,
      mktA2, mktB2, RuntimeState.list_markets, RuntimeState.engaged_markets,
      SimulatorConfig.get_market_policy, lookupKey, assignRanks, List.mergeSort, oppSortLE,
      statusFlag, pySortVal, pyOr, pyOrStr, effectiveBudget, exposuresByEvent,
      exposuresByMonth, initialHoldings, sortHoldings, execLoop, processOpportunity,
      processSizing, commitBuy, rotationLoop, appendSkip, getFreeze, lookupFreeze,
      eraseFreeze, findMarket, updateMarket, targetValue1, targetValue2,
      compute_fill_from_asks, askWalk, compute_fill_from_bids, bidWalk, simulateSell,
      MarketState.key, MarketState.g_held, MarketState.g_for_price,
      MarketState.invested_amount, MarketState.market_value, MarketState.buy,
      MarketState.sell, MarketState.resolution_month, MarketPolicy.effective_slippage_cap,
      MarketPolicy.effective_exit_slippage_cap, FreezeStatus.is_active, gcache, holdingLE,
      appendTrade, List.filterMap_cons, List.filter_cons, List.find?_cons,
      eps6, eps9, negBig]
  exact ⟨hlen, claim_C2_rotation_guard idL cfgB 0 none stateB _
    (List.get_mem _ 0 hlen)⟩

theorem lookupFreeze_erase_ne (fs : List (String × FreezeStatus)) (key k : String)
    (h : k ≠ key) : lookupFreeze (eraseFreeze fs key) k = lookupFreeze fs k := by
  induction fs with
  | nil => rfl
  | cons e rest ih =>
    by_cases he : e.1 = key
    · have hek : ¬ e.1 = k := fun hk => h (hk ▸ he)
      have hkk : ¬ key = k := fun hk => h hk.symm
      simpa [lookupFreeze, eraseFreeze, List.filter_cons, lookupKey, he, hek, hkk]
        using ih
    · by_cases hek : e.1 = k
      · simp [lookupFreeze, eraseFreeze, List.filter_cons, lookupKey, he, hek, h]
      · simpa [lookupFreeze, eraseFreeze, List.filter_cons, lookupKey, he, hek]
          using ih

theorem lookupFreeze_erase_self (fs : List (String × FreezeStatus)) (key : String) :
    lookupFreeze (eraseFreeze fs key) key = none := by
  induction fs with
  | nil => rfl
  | cons e rest ih =>
    by_cases he : e.1 = key
    · simpa [lookupFreeze, eraseFreeze, List.filter_cons, he] using ih
    · simpa [lookupFreeze, eraseFreeze, List.filter_cons, he, lookupKey] using ih

theorem getFreeze_active (fs : List (String × FreezeStatus)) (now : ℚ) (key : String)
    (f : FreezeStatus) (hl : lookupFreeze fs key = some f)
    (ha : f.is_active now = true) : (getFreeze fs now key).1 = some f := by
  simp [getFreeze, hl, ha]

theorem getFreeze_preserve (fs : List (String × FreezeStatus)) (now : ℚ) (key k : String)
    (f : FreezeStatus) (hl : lookupFreeze fs k = some f) (ha : f.is_active now = true) :
    lookupFreeze (getFreeze fs now key).2 k = some f := by
  unfold getFreeze
  cases hlk : lookupFreeze fs key with
  | none => simpa using hl
  | some g =>
    by_cases hg : g.is_active now = true
    · simpa [hg] using hl
    · simp only [hg, Bool.false_eq_true, if_false]
      by_cases hk : k = key
      · subst hk
        rw [hl] at hlk
        cases hlk
        exact absurd ha hg
      · rw [lookupFreeze_erase_ne fs key k hk]
        exact hl

theorem commitBuy_proj (ctx : ExecCtx) (ls : LoopSt) (market : MarketState)
    (opp : CandidateOpportunity) (oppG : ℚ) (g_held : Option ℚ) (policy : MarketPolicy)
    (shares avg_price slippage_bps slippage_cap cost : ℚ) (sellsBefore : Nat) :
    (commitBuy ctx ls market opp oppG g_held policy shares avg_price slippage_bps
        slippage_cap cost sellsBefore).freezes = ls.freezes
    ∧ ∀ b ∈ (commitBuy ctx ls market opp oppG g_held policy shares avg_price slippage_bps
        slippage_cap cost sellsBefore).buys,
        b ∈ ls.buys ∨ (b.market_id = market.market_id ∧ b.outcome = market.outcome) := by
  constructor
  · rfl
  · intro b hb
    simp only [commitBuy] at hb
    rcases List.mem_append.mp hb with h | h
    · exact Or.inl h
    · rcases List.mem_singleton.mp h with rfl
      exact Or.inr ⟨rfl, rfl⟩

theorem processSizing_buys_freezes (ctx : ExecCtx) (ls : LoopSt) (market : MarketState)
    (opp : CandidateOpportunity) (oppG : ℚ) (g_held : Option ℚ) (policy : MarketPolicy) :
    (processSizing ctx ls market opp oppG g_held policy).freezes = ls.freezes
    ∧ ∀ b ∈ (processSizing ctx ls market opp oppG g_held policy).buys,
        b ∈ ls.buys ∨ (b.market_id = market.market_id ∧ b.outcome = market.outcome) := by
  constructor
  · simp only [processSizing]
    split
    · exact (appendSkip_proj _ _ _ _ _).2.2.2.1
    · split_ifs <;>
        first
        | exact (appendSkip_proj _ _ _ _ _).2.2.2.1
        | rfl
        | (rw [(appendSkip_proj _ _ _ _ _).2.2.2.1]
           exact (rotationLoop_fields _ _ _ _ _ _ _).2.2.1)
        | (rw [(commitBuy_proj _ _ _ _ _ _ _ _ _ _ _ _ _).1]
           exact (rotationLoop_fields _ _ _ _ _ _ _).2.2.1)
        | exact (commitBuy_proj _ _ _ _ _ _ _ _ _ _ _ _ _).1
  · intro b hb
    simp only [processSizing] at hb
    split at hb
    · rw [(appendSkip_proj _ _ _ _ _).2.1] at hb
      exact Or.inl hb
    · split_ifs at hb <;>
        first
        | (rw [(appendSkip_proj _ _ _ _ _).2.1] at hb
           exact Or.inl hb)
        | exact Or.inl hb
        | (rw [(appendSkip_proj _ _ _ _ _).2.1,
               (rotationLoop_fields _ _ _ _ _ _ _).1] at hb
           exact Or.inl hb)
        | (rcases (commitBuy_proj _ _ _ _ _ _ _ _ _ _ _ _ _).2 b hb with h | h
           · rw [(rotationLoop_fields _ _ _ _ _ _ _).1] at h
             exact Or.inl h
           · exact Or.inr h)
        | (rcases (commitBuy_proj _ _ _ _ _ _ _ _ _ _ _ _ _).2 b hb with h | h
           · exact Or.inl h
           · exact Or.inr h)

theorem processOpportunity_freeze_inv (ctx : ExecCtx) (ls : LoopSt)
    (opp : CandidateOpportunity) (key : String) (f : FreezeStatus)
    (hl : lookupFreeze ls.freezes key = some f) (ha : f.is_active ctx.now = true) :
    lookupFreeze (processOpportunity ctx ls opp).freezes key = some f
    ∧ ∀ b ∈ (processOpportunity ctx ls opp).buys,
        b ∈ ls.buys
        ∨ (ctx.cfg.get_market_policy b.market_id).whitelist_autobuy = true
        ∨ b.market_id ++ "|" ++ b.outcome ≠ key := by
  simp only [processOpportunity]
  split_ifs with h1
  · exact ⟨hl, fun b hb => Or.inl hb⟩
  · split
    · exact ⟨hl, fun b hb => Or.inl hb⟩
    · split
      · exact ⟨hl, fun b hb => Or.inl hb⟩
      · rename_i market hm
        split_ifs with h2 h3 h4
        · refine ⟨?_, ?_⟩
          · rw [(appendSkip_proj _ _ _ _ _).2.2.2.1]
            exact hl
          · intro b hb
            rw [(appendSkip_proj _ _ _ _ _).2.1] at hb
            exact Or.inl hb
        · refine ⟨?_, ?_⟩
          · rw [(appendSkip_proj _ _ _ _ _).2.2.2.1]
            exact hl
          · intro b hb
            rw [(appendSkip_proj _ _ _ _ _).2.1] at hb
            exact Or.inl hb
        · split
          · refine ⟨?_, ?_⟩
            · rw [(appendSkip_proj _ _ _ _ _).2.2.2.1]
              exact getFreeze_preserve ls.freezes ctx.now market.key key f hl ha
            · intro b hb
              rw [(appendSkip_proj _ _ _ _ _).2.1] at hb
              exact Or.inl hb
          · rename_i hfr
            refine ⟨?_, ?_⟩
            · rw [(processSizing_buys_freezes _ _ _ _ _ _ _).1]
              exact getFreeze_preserve ls.freezes ctx.now market.key key f hl ha
            · intro b hb
              rcases (processSizing_buys_freezes _ _ _ _ _ _ _).2 b hb with h | h
              · exact Or.inl h
              · right
                right
                rw [h.1, h.2]
                intro hkey
                have hkm : market.key = key := hkey
                rw [hkm] at hfr
                rw [getFreeze_active ls.freezes ctx.now key f hl ha] at hfr
                exact Option.noConfusion hfr
        · split
          all_goals
            refine ⟨?_, ?_⟩
            · rw [(processSizing_buys_freezes _ _ _ _ _ _ _).1]
              exact getFreeze_preserve ls.freezes ctx.now market.key key f hl ha
            · intro b hb
              rcases (processSizing_buys_freezes _ _ _ _ _ _ _).2 b hb with h | h
              · exact Or.inl h
              · right
                left
                rw [h.1]
                exact Bool.eq_true_of_ne_false h4

theorem execLoop_freeze_inv (ctx : ExecCtx) (key : String) (f : FreezeStatus)
    (ha : f.is_active ctx.now = true) :
    ∀ (opps : List CandidateOpportunity) (ls : LoopSt),
    lookupFreeze ls.freezes key = some f →
    (∀ b ∈ ls.buys, (ctx.cfg.get_market_policy b.market_id).whitelist_autobuy = true
        ∨ b.market_id ++ "|" ++ b.outcome ≠ key) →
    ∀ b ∈ (execLoop ctx opps ls).buys,
      (ctx.cfg.get_market_policy b.market_id).whitelist_autobuy = true
      ∨ b.market_id ++ "|" ++ b.outcome ≠ key := by
  intro opps
  induction opps with
  | nil =>
    intro ls hl hbuys b hb
    exact hbuys b hb
  | cons opp rest ih =>
    intro ls hl hbuys b hb
    have step := processOpportunity_freeze_inv ctx ls opp key f hl ha
    refine ih (processOpportunity ctx ls opp) step.1 ?_ b hb
    intro b2 hb2
    rcases step.2 b2 hb2 with h | h | h
    · exact hbuys b2 h
    · exact Or.inl h
    · exact Or.inr h

/-- C8 confirmed: (i) `execute` produces no buy record for a market
whose key has an entry in the initial freeze table that is active at
the current time, unless that market's policy whitelists auto-buy;
(ii) a freeze is active iff the current time is strictly before its
expiry; (iii) an expired freeze entry is removed from the freeze table
when read via `get_freeze`, which returns none for it. -/
theorem claim_C8_freeze_respect (ln1p : ℚ → ℚ) (cfg : SimulatorConfig) (now : ℚ)
    (modeArg : Option String) (state : RuntimeState) :
    (∀ (key : String) (f : FreezeStatus),
      lookupFreeze state.active_freezes key = some f → f.is_active now = true →
      ∀ b ∈ (AllocationEngine.execute ln1p cfg now modeArg state).1.buys,
        (cfg.get_market_policy b.market_id).whitelist_autobuy = true
        ∨ b.market_id ++ "|" ++ b.outcome ≠ key)
    ∧ (∀ (f : FreezeStatus) (t : ℚ), f.is_active t = true ↔ t < f.until_time)
    ∧ (∀ (st : RuntimeState) (key : String) (f : FreezeStatus),
        lookupFreeze st.active_freezes key = some f → f.is_active now = false →
        (st.get_freeze now key).1 = none
        ∧ lookupFreeze (st.get_freeze now key).2.active_freezes key = none) := by
  refine ⟨?_, ?_, ?_⟩
  · intro key f hl ha b hb
    simp only [AllocationEngine.execute] at hb
    exact execLoop_freeze_inv _ key f ha _ _ hl
      (fun b2 hb2 => absurd hb2 (List.not_mem_nil b2)) b hb
  · intro f t
    simp [FreezeStatus.is_active]
  · intro st key f hl hin
    have h1 : getFreeze st.active_freezes now key
        = (none, eraseFreeze st.active_freezes key) := by
      simp [getFreeze, hl, hin]
    refine ⟨?_, ?_⟩
    · show (getFreeze st.active_freezes now key).1 = none
      rw [h1]
    · show lookupFreeze (getFreeze st.active_freezes now key).2 key = none
      rw [h1]
      exact lookupFreeze_erase_self _ _

theorem appendSkip_rej_len (ls : LoopSt) (market : MarketState)
    (opp : CandidateOpportunity) (rc : List String) (d : List (String × DetailVal)) :
    (appendSkip ls market opp rc d).rejections.length = ls.rejections.length + 1 := by
  rw [(appendSkip_proj ls market opp rc d).2.2.2.2.2.2]
  simp

theorem commitBuy_buys_len (ctx : ExecCtx) (ls : LoopSt) (market : MarketState)
    (opp : CandidateOpportunity) (oppG : ℚ) (g_held : Option ℚ) (policy : MarketPolicy)
    (shares avg_price slippage_bps slippage_cap cost : ℚ) (sellsBefore : Nat) :
    (commitBuy ctx ls market opp oppG g_held policy shares avg_price slippage_bps
        slippage_cap cost sellsBefore).buys.length = ls.buys.length + 1 := by
  simp [commitBuy]

theorem processSizing_cases (ctx : ExecCtx) (ls : LoopSt) (market : MarketState)
    (opp : CandidateOpportunity) (oppG : ℚ) (g_held : Option ℚ) (policy : MarketPolicy) :
    (processSizing ctx ls market opp oppG g_held policy).buys.length
        = ls.buys.length + 1
    ∨ (processSizing ctx ls market opp oppG g_held policy).rejections.length
        = ls.rejections.length + 1
    ∨ (processSizing ctx ls market opp oppG g_held policy = ls
        ∧ (compute_fill_from_asks market.order_book.asks
            (targetValue2 ctx ls market policy)).1 ≤ eps9) := by
  simp only [processSizing]
  split
  · right
    left
    exact appendSkip_rej_len _ _ _ _ _
  · split_ifs <;>
      first
      | (left
         rw [commitBuy_buys_len, (rotationLoop_fields _ _ _ _ _ _ _).1])
      | (left
         rw [commitBuy_buys_len])
      | (right
         left
         rw [appendSkip_rej_len, (rotationLoop_fields _ _ _ _ _ _ _).2.1])
      | (right
         left
         rw [appendSkip_rej_len])
      | (right
         right
         exact ⟨rfl, by assumption⟩)

/-- C3, corrected statement.  Each candidate processed by the buy loop
either records a buy, or records a rejection, or is dropped with the
loop state entirely unchanged because it is not eligible, has no g, or
references no live market, or — the silent skip path the claim misses —
is dropped with no rejection record when the computed fill is dust
(shares at most 1e-9), only the lazily-cleaned freeze table possibly
changing.  Eligible dust-fill candidates are silently dropped, refuting
the claim that every skip path of an eligible candidate emits a
rejection record. -/
theorem claim_C3_rejection_coverage (ctx : ExecCtx) (ls : LoopSt)
    (opp : CandidateOpportunity) :
    (processOpportunity ctx ls opp).buys.length = ls.buys.length + 1
    ∨ (processOpportunity ctx ls opp).rejections.length = ls.rejections.length + 1
    ∨ (processOpportunity ctx ls opp = ls
        ∧ (opp.status ≠ OppStatus.eligible ∨ opp.g = none
            ∨ findMarket ls.markets opp.market_key = none))
    ∨ ((processOpportunity ctx ls opp).buys = ls.buys
        ∧ (processOpportunity ctx ls opp).rejections = ls.rejections
        ∧ (processOpportunity ctx ls opp).sells = ls.sells
        ∧ ∃ market, findMarket ls.markets opp.market_key = some market
            ∧ (compute_fill_from_asks market.order_book.asks
                (targetValue2 ctx ls market
                  (ctx.cfg.get_market_policy market.market_id))).1 ≤ eps9) := by
  simp only [processOpportunity]
  split_ifs with h1
  · exact Or.inr (Or.inr (Or.inl ⟨rfl, Or.inl h1⟩))
  · split
    · rename_i hg
      exact Or.inr (Or.inr (Or.inl ⟨rfl, Or.inr (Or.inl hg)⟩))
    · rename_i oppG hg
      split
      · rename_i hm
        exact Or.inr (Or.inr (Or.inl ⟨rfl, Or.inr (Or.inr hm)⟩))
      · rename_i market hm
        split_ifs with h2 h3 h4
        · right
          left
          exact appendSkip_rej_len _ _ _ _ _
        · right
          left
          exact appendSkip_rej_len _ _ _ _ _
        · split
          · right
            left
            exact appendSkip_rej_len _ _ _ _ _
          · rcases processSizing_cases ctx
                { ls with freezes := (getFreeze ls.freezes ctx.now market.key).2 }
                market opp oppG
                (market.g_held ctx.ln1p ctx.cfg.global_policy.settlement_lambda_days)
                (ctx.cfg.get_market_policy market.market_id) with h | h | h
            · exact Or.inl h
            · exact Or.inr (Or.inl h)
            · right
              right
              right
              refine ⟨?_, ?_, ?_, market, hm, ?_⟩
              · rw [h.1]
              · rw [h.1]
              · rw [h.1]
              · exact h.2
        · split
          all_goals
            rcases processSizing_cases ctx
                { ls with freezes := (getFreeze ls.freezes ctx.now market.key).2 }
                market opp oppG
                (market.g_held ctx.ln1p ctx.cfg.global_policy.settlement_lambda_days)
                (ctx.cfg.get_market_policy market.market_id) with h | h | h
            · exact Or.inl h
            · exact Or.inr (Or.inl h)
            · right
              right
              right
              refine ⟨?_, ?_, ?_, market, hm, ?_⟩
              · rw [h.1]
              · rw [h.1]
              · rw [h.1]
              · exact h.2

theorem rotationLoop_needed (ctx : ExecCtx) (opp : CandidateOpportunity) (oppG cost : ℚ) :
    ∀ (donors : List Holding) (needed : ℚ) (ls : LoopSt),
    cost - max 0 (ls.cash - ctx.cash_reserve_value) ≤ needed →
    cost - max 0 ((rotationLoop ctx opp oppG cost donors needed ls).1.cash
        - ctx.cash_reserve_value) ≤ (rotationLoop ctx opp oppG cost donors needed ls).2 := by
  intro donors
  induction donors with
  | nil =>
    intro needed ls h
    simpa [rotationLoop] using h
  | cons donor rest ih =>
    intro needed ls h
    simp only [rotationLoop]
    split
    · exact ih needed ls h
    · split
      · exact ih needed ls h
      · split_ifs with hd hs hn <;>
          first
          | exact ih needed ls h
          | exact le_max_right _ _
          | exact ih _ _ (le_max_right _ _)

theorem commitBuy_cash (ctx : ExecCtx) (ls : LoopSt) (market : MarketState)
    (opp : CandidateOpportunity) (oppG : ℚ) (g_held : Option ℚ) (policy : MarketPolicy)
    (shares avg_price slippage_bps slippage_cap cost : ℚ) (sellsBefore : Nat) :
    (commitBuy ctx ls market opp oppG g_held policy shares avg_price slippage_bps
        slippage_cap cost sellsBefore).cash = ls.cash - cost := rfl

theorem rotation_commit_bound (ctx : ExecCtx) (opp : CandidateOpportunity)
    (oppG cost : ℚ) (donors : List Holding) (ls : LoopSt)
    (hr : 0 ≤ ctx.cash_reserve_value)
    (hrem : (rotationLoop ctx opp oppG cost donors
        (cost - max 0 (ls.cash - ctx.cash_reserve_value)) ls).2 ≤ eps6) :
    min ls.cash 0 - eps6
      ≤ (rotationLoop ctx opp oppG cost donors
          (cost - max 0 (ls.cash - ctx.cash_reserve_value)) ls).1.cash - cost := by
  have hneed := rotationLoop_needed ctx opp oppG cost donors _ ls (le_refl _)
  have hcash := rotationLoop_cash ctx opp oppG cost donors
    (cost - max 0 (ls.cash - ctx.cash_reserve_value)) ls
  have hmin1 : min ls.cash 0 ≤ ls.cash := min_le_left _ _
  have hmin0 : min ls.cash 0 ≤ 0 := min_le_right _ _
  have heps : (0:ℚ) < eps6 := by norm_num [eps6]
  rcases max_choice 0 ((rotationLoop ctx opp oppG cost donors
      (cost - max 0 (ls.cash - ctx.cash_reserve_value)) ls).1.cash
      - ctx.cash_reserve_value) with hmax | hmax <;>
    linarith [hmax]

set_option maxHeartbeats 1000000 in
theorem processSizing_cash (ctx : ExecCtx) (ls : LoopSt) (market : MarketState)
    (opp : CandidateOpportunity) (oppG : ℚ) (g_held : Option ℚ) (policy : MarketPolicy)
    (hr : 0 ≤ ctx.cash_reserve_value) :
    ((processSizing ctx ls market opp oppG g_held policy).buys.length = ls.buys.length
      ∧ ls.cash ≤ (processSizing ctx ls market opp oppG g_held policy).cash)
    ∨ ((processSizing ctx ls market opp oppG g_held policy).buys.length
          = ls.buys.length + 1
      ∧ min ls.cash 0 - eps6
          ≤ (processSizing ctx ls market opp oppG g_held policy).cash) := by
  have heps : (0:ℚ) < eps6 := by norm_num [eps6]
  simp only [processSizing]
  split
  · left
    refine ⟨?_, ?_⟩
    · rw [(appendSkip_proj _ _ _ _ _).2.1]
    · rw [(appendSkip_proj _ _ _ _ _).2.2.1]
  · split_ifs <;>
      first
      | exact Or.inl ⟨rfl, le_refl _⟩
      | (left
         refine ⟨?_, ?_⟩
         · rw [(appendSkip_proj _ _ _ _ _).2.1, (rotationLoop_fields _ _ _ _ _ _ _).1]
         · rw [(appendSkip_proj _ _ _ _ _).2.2.1]
           exact rotationLoop_cash _ _ _ _ _ _ _)
      | (left
         refine ⟨?_, ?_⟩
         · rw [(appendSkip_proj _ _ _ _ _).2.1]
         · rw [(appendSkip_proj _ _ _ _ _).2.2.1])
      | (exfalso
         linarith [heps])
      | (right
         refine ⟨?_, ?_⟩
         · rw [commitBuy_buys_len]
         · rw [commitBuy_cash]
           rcases max_choice 0 (ls.cash - ctx.cash_reserve_value) with hmax | hmax <;>
             linarith [hmax, le_max_left 0 (ls.cash - ctx.cash_reserve_value), hr, heps,
               min_le_left ls.cash 0, min_le_right ls.cash 0])
      | (right
         refine ⟨?_, ?_⟩
         · rw [commitBuy_buys_len, (rotationLoop_fields _ _ _ _ _ _ _).1]
         · rw [commitBuy_cash]
           exact rotation_commit_bound _ _ _ _ _ _ hr (le_of_not_lt (by assumption)))

theorem processOpportunity_cash (ctx : ExecCtx) (ls : LoopSt)
    (opp : CandidateOpportunity) (hr : 0 ≤ ctx.cash_reserve_value) :
    ((processOpportunity ctx ls opp).buys.length = ls.buys.length
      ∧ ls.cash ≤ (processOpportunity ctx ls opp).cash)
    ∨ ((processOpportunity ctx ls opp).buys.length = ls.buys.length + 1
      ∧ min ls.cash 0 - eps6 ≤ (processOpportunity ctx ls opp).cash) := by
  simp only [processOpportunity]
  split_ifs with h1
  · exact Or.inl ⟨rfl, le_refl _⟩
  · split
    · exact Or.inl ⟨rfl, le_refl _⟩
    · rename_i oppG hg
      split
      · exact Or.inl ⟨rfl, le_refl _⟩
      · rename_i market hm
        split_ifs with h2 h3 h4
        · left
          refine ⟨?_, ?_⟩
          · rw [(appendSkip_proj _ _ _ _ _).2.1]
          · rw [(appendSkip_proj _ _ _ _ _).2.2.1]
        · left
          refine ⟨?_, ?_⟩
          · rw [(appendSkip_proj _ _ _ _ _).2.1]
          · rw [(appendSkip_proj _ _ _ _ _).2.2.1]
        · split
          · left
            refine ⟨?_, ?_⟩
            · rw [(appendSkip_proj _ _ _ _ _).2.1]
            · rw [(appendSkip_proj _ _ _ _ _).2.2.1]
          · rcases processSizing_cash ctx
                { ls with freezes := (getFreeze ls.freezes ctx.now market.key).2 }
                market opp oppG
                (market.g_held ctx.ln1p ctx.cfg.global_policy.settlement_lambda_days)
                (ctx.cfg.get_market_policy market.market_id) hr with h | h
            · exact Or.inl h
            · exact Or.inr h
        · split
          all_goals
            rcases processSizing_cash ctx
                { ls with freezes := (getFreeze ls.freezes ctx.now market.key).2 }
                market opp oppG
                (market.g_held ctx.ln1p ctx.cfg.global_policy.settlement_lambda_days)
                (ctx.cfg.get_market_policy market.market_id) hr with h | h
            · exact Or.inl h
            · exact Or.inr h

theorem execLoop_cash (ctx : ExecCtx) (hr : 0 ≤ ctx.cash_reserve_value) (m : ℚ)
    (hm : m ≤ 0) :
    ∀ (opps : List CandidateOpportunity) (ls : LoopSt),
    m - eps6 * (ls.buys.length : ℚ) ≤ ls.cash →
    m - eps6 * ((execLoop ctx opps ls).buys.length : ℚ) ≤ (execLoop ctx opps ls).cash := by
  intro opps
  induction opps with
  | nil =>
    intro ls h
    exact h
  | cons opp rest ih =>
    intro ls h
    refine ih (processOpportunity ctx ls opp) ?_
    have heps : (0:ℚ) < eps6 := by norm_num [eps6]
    rcases processOpportunity_cash ctx ls opp hr with hc | hc
    · rw [hc.1]
      linarith [hc.2]
    · rw [hc.1]
      push_cast
      have hk : (0:ℚ) ≤ eps6 * (ls.buys.length : ℚ) :=
        mul_nonneg (le_of_lt heps) (Nat.cast_nonneg _)
      have hmin : m - eps6 * (ls.buys.length : ℚ) ≤ min ls.cash 0 :=
        le_min h (by linarith)
      linarith [hc.2]

/-- C1, corrected statement.  The engine can overdraw cash: each
committed buy may leave a shortfall of up to the 1e-6 epsilon, so
starting from non-negative cash the balance after one cycle is not
always non-negative, but it is bounded below by
`min cash 0 - 1e-6 * (number of buys)`, assuming the configured cash
reserve fraction and the effective budget are non-negative (both are
enforced by config validation). -/
theorem claim_C1_cash_floor (ln1p : ℚ → ℚ) (cfg : SimulatorConfig) (now : ℚ)
    (modeArg : Option String) (state : RuntimeState)
    (hr : 0 ≤ cfg.global_policy.cash_reserve_pct)
    (hb : 0 ≤ effectiveBudget state) :
    min state.cash_balance 0
      - eps6 * ((AllocationEngine.execute ln1p cfg now modeArg state).1.buys.length : ℚ)
      ≤ (AllocationEngine.execute ln1p cfg now modeArg state).2.cash_balance := by
  have hrv : (0:ℚ) ≤ effectiveBudget state * cfg.global_policy.cash_reserve_pct :=
    mul_nonneg hb hr
  have hm : min state.cash_balance 0 ≤ 0 := min_le_right _ _
  simp only [AllocationEngine.execute]
  refine execLoop_cash _ hrv _ hm _ _ ?_
  simpa using min_le_left state.cash_balance 0

/-- C1 witness: the corrected bound applied to the concrete state
`stateA` (initial cash 0, positive budget, default non-negative
reserve fraction). -/
theorem claim_C1_witness :
    min stateA.cash_balance 0
      - eps6 * ((AllocationEngine.execute idL cfgA 0 none stateA).1.buys.length : ℚ)
      ≤ (AllocationEngine.execute idL cfgA 0 none stateA).2.cash_balance :=
  claim_C1_cash_floor idL cfgA 0 none stateA (by norm_num [cfgA])
    (by norm_num [effectiveBudget, stateA])

theorem holdingLE_trans (a b c : Holding) (hab : holdingLE a b = true)
    (hbc : holdingLE b c = true) : holdingLE a c = true := by
  unfold holdingLE at hab hbc ⊢
  simp at hab hbc ⊢
  rcases hab with h1 | h1 <;> rcases hbc with h2 | h2
  · exact Or.inl (lt_trans h1 h2)
  · exact Or.inl (lt_of_lt_of_eq h1 h2.1)
  · exact Or.inl (lt_of_eq_of_lt h1.1 h2)
  · exact Or.inr ⟨h1.1.trans h2.1, le_trans h2.2 h1.2⟩

theorem holdingLE_total (a b : Holding) :
    (holdingLE a b || holdingLE b a) = true := by
  unfold holdingLE
  simp
  rcases lt_trichotomy a.g b.g with h | h | h
  · exact Or.inl (Or.inl h)
  · rcases le_total b.priority a.priority with hp | hp
    · exact Or.inl (Or.inr ⟨h, hp⟩)
    · exact Or.inr (Or.inr ⟨h.symm, hp⟩)
  · exact Or.inr (Or.inl h)

theorem sortHoldings_sorted (l : List Holding) :
    (sortHoldings l).Pairwise (fun a b => holdingLE a b = true) :=
  List.sorted_mergeSort holdingLE_trans holdingLE_total l

theorem rotationLoop_holdings_sorted (ctx : ExecCtx) (opp : CandidateOpportunity)
    (oppG cost : ℚ) :
    ∀ (donors : List Holding) (needed : ℚ) (ls : LoopSt),
    ls.holdings.Pairwise (fun a b => holdingLE a b = true) →
    (rotationLoop ctx opp oppG cost donors needed ls).1.holdings.Pairwise
      (fun a b => holdingLE a b = true) := by
  intro donors
  induction donors with
  | nil =>
    intro needed ls h
    simpa [rotationLoop] using h
  | cons donor rest ih =>
    intro needed ls h
    simp only [rotationLoop]
    split
    · exact ih needed ls h
    · split
      · exact ih needed ls h
      · split_ifs with hd hs hn <;>
          first
          | exact ih needed ls h
          | exact sortHoldings_sorted _
          | exact ih _ _ (sortHoldings_sorted _)

theorem commitBuy_holdings_sorted (ctx : ExecCtx) (ls : LoopSt) (market : MarketState)
    (opp : CandidateOpportunity) (oppG : ℚ) (g_held : Option ℚ) (policy : MarketPolicy)
    (shares avg_price slippage_bps slippage_cap cost : ℚ) (sellsBefore : Nat)
    (h : ls.holdings.Pairwise (fun a b => holdingLE a b = true)) :
    (commitBuy ctx ls market opp oppG g_held policy shares avg_price slippage_bps
        slippage_cap cost sellsBefore).holdings.Pairwise
      (fun a b => holdingLE a b = true) := by
  simp only [commitBuy]
  split_ifs <;>
    first
    | exact h
    | exact sortHoldings_sorted _

theorem processSizing_holdings_sorted (ctx : ExecCtx) (ls : LoopSt)
    (market : MarketState) (opp : CandidateOpportunity) (oppG : ℚ)
    (g_held : Option ℚ) (policy : MarketPolicy)
    (h : ls.holdings.Pairwise (fun a b => holdingLE a b = true)) :
    (processSizing ctx ls market opp oppG g_held policy).holdings.Pairwise
      (fun a b => holdingLE a b = true) := by
  simp only [processSizing]
  split
  · rw [(appendSkip_proj _ _ _ _ _).2.2.2.2.2.1]
    exact h
  · split_ifs <;>
      first
      | exact h
      | (rw [(appendSkip_proj _ _ _ _ _).2.2.2.2.2.1]
         exact h)
      | (rw [(appendSkip_proj _ _ _ _ _).2.2.2.2.2.1]
         exact rotationLoop_holdings_sorted _ _ _ _ _ _ _ h)
      | exact commitBuy_holdings_sorted _ _ _ _ _ _ _ _ _ _ _ _ _ h
      | exact commitBuy_holdings_sorted _ _ _ _ _ _ _ _ _ _ _ _ _
          (rotationLoop_holdings_sorted _ _ _ _ _ _ _ h)

theorem processOpportunity_holdings_sorted (ctx : ExecCtx) (ls : LoopSt)
    (opp : CandidateOpportunity)
    (h : ls.holdings.Pairwise (fun a b => holdingLE a b = true)) :
    (processOpportunity ctx ls opp).holdings.Pairwise
      (fun a b => holdingLE a b = true) := by
  simp only [processOpportunity]
  split_ifs with h1
  · exact h
  · split
    · exact h
    · rename_i oppG hg
      split
      · exact h
      · rename_i market hm
        split_ifs with h2 h3 h4
        · rw [(appendSkip_proj _ _ _ _ _).2.2.2.2.2.1]
          exact h
        · rw [(appendSkip_proj _ _ _ _ _).2.2.2.2.2.1]
          exact h
        · split
          · rw [(appendSkip_proj _ _ _ _ _).2.2.2.2.2.1]
            exact h
          · exact processSizing_holdings_sorted ctx
              { ls with freezes := (getFreeze ls.freezes ctx.now market.key).2 }
              market opp oppG
              (market.g_held ctx.ln1p ctx.cfg.global_policy.settlement_lambda_days)
              (ctx.cfg.get_market_policy market.market_id) h
        · split
          all_goals
            exact processSizing_holdings_sorted ctx
              { ls with freezes := (getFreeze ls.freezes ctx.now market.key).2 }
              market opp oppG
              (market.g_held ctx.ln1p ctx.cfg.global_policy.settlement_lambda_days)
              (ctx.cfg.get_market_policy market.market_id) h

theorem execLoop_holdings_sorted (ctx : ExecCtx) :
    ∀ (opps : List CandidateOpportunity) (ls : LoopSt),
    ls.holdings.Pairwise (fun a b => holdingLE a b = true) →
    (execLoop ctx opps ls).holdings.Pairwise (fun a b => holdingLE a b = true) := by
  intro opps
  induction opps with
  | nil =>
    intro ls h
    exact h
  | cons opp rest ih =>
    intro ls h
    exact ih (processOpportunity ctx ls opp)
      (processOpportunity_holdings_sorted ctx ls opp h)

/-- C6 confirmed: the donor ordering of rotation funding.  The holdings
order `holdingLE` is ascending in held g with ties broken by descending
priority number (a donor with a lower priority number sorts later, so it
is sold last); the initial donor list is sorted in this order; the donor
candidate list of a buy (the holdings minus the candidate market itself)
stays sorted; the holdings list is re-sorted (on the live held g written
back into the cached entry) after every rotation sell; and sortedness is
preserved across the whole candidate loop, so donors are always walked
worst-g-first. -/
theorem claim_C6_donor_order :
    (∀ a b : Holding, holdingLE a b = true ↔
        (a.g < b.g ∨ (a.g = b.g ∧ b.priority ≤ a.priority)))
    ∧ (∀ (ln1p : ℚ → ℚ) (cfg : SimulatorConfig) (state : RuntimeState),
        (initialHoldings ln1p cfg state).Pairwise (fun a b => holdingLE a b = true))
    ∧ (∀ (l : List Holding) (key : String),
        l.Pairwise (fun a b => holdingLE a b = true) →
        (l.filter (fun h => !(decide (h.key = key)))).Pairwise
          (fun a b => holdingLE a b = true))
    ∧ (∀ (ctx : ExecCtx) (opp : CandidateOpportunity) (oppG cost : ℚ)
        (donors : List Holding) (needed : ℚ) (ls : LoopSt),
        ls.holdings.Pairwise (fun a b => holdingLE a b = true) →
        (rotationLoop ctx opp oppG cost donors needed ls).1.holdings.Pairwise
          (fun a b => holdingLE a b = true))
    ∧ (∀ (ctx : ExecCtx) (opps : List CandidateOpportunity) (ls : LoopSt),
        ls.holdings.Pairwise (fun a b => holdingLE a b = true) →
        (execLoop ctx opps ls).holdings.Pairwise
          (fun a b => holdingLE a b = true)) := by
  refine ⟨?_, ?_, ?_, ?_, ?_⟩
  · intro a b
    simp [holdingLE]
  · intro ln1p cfg state
    exact sortHoldings_sorted _
  · intro l key hs
    exact List.Pairwise.sublist (List.filter_sublist _) hs
  · intro ctx opp oppG cost donors needed ls h
    exact rotationLoop_holdings_sorted ctx opp oppG cost donors needed ls h
  · intro ctx opps ls h
    exact execLoop_holdings_sorted ctx opps ls h
